import Mathlib

/-!
# The PostgreSQL dialect of gorm (`dialect_postgres.go`)

A shallow embedding of the dialect adapter: bind variables, the mapping from
Go reflection kinds to SQL type names, the catalogue existence checks, the
`RETURNING` suffix and the `Hstore` codec, followed by the properties proved
about them.

Go strings are Lean strings, Go `int` values are Lean integers, `*string` is
`Option String` (`none` is the nil pointer), a call into `reflect` that may
panic returns a `Result`, and `DataTypeOf`, which may panic, returns an
`Outcome`.
-/

namespace Gorm

/-! ## The pieces of `reflect` the dialect looks at -/

/-- The kinds of `reflect.Kind`, in the order of the Go declaration. -/
inductive Kind where
  | Invalid | Bool
  | Int | Int8 | Int16 | Int32 | Int64
  | Uint | Uint8 | Uint16 | Uint32 | Uint64 | Uintptr
  | Float32 | Float64 | Complex64 | Complex128
  | Array | Chan | Func | Interface | Map | Ptr | Slice | String | Struct
  | UnsafePointer
  deriving DecidableEq, Repr

/-- The text of Go `Kind.String()`, used in the panic message. -/
def kindString : Kind → String
  | .Invalid => "invalid" | .Bool => "bool"
  | .Int => "int" | .Int8 => "int8" | .Int16 => "int16" | .Int32 => "int32"
  | .Int64 => "int64"
  | .Uint => "uint" | .Uint8 => "uint8" | .Uint16 => "uint16" | .Uint32 => "uint32"
  | .Uint64 => "uint64" | .Uintptr => "uintptr"
  | .Float32 => "float32" | .Float64 => "float64"
  | .Complex64 => "complex64" | .Complex128 => "complex128"
  | .Array => "array" | .Chan => "chan" | .Func => "func" | .Interface => "interface"
  | .Map => "map" | .Ptr => "ptr" | .Slice => "slice" | .String => "string"
  | .Struct => "struct" | .UnsafePointer => "unsafe.Pointer"

/-- The predeclared Go types (plus `unsafe.Pointer`): the types that have a
kind of their own without being built from other types. -/
inductive Basic where
  | bool | int | int8 | int16 | int32 | int64
  | uint | uint8 | uint16 | uint32 | uint64 | uintptr
  | float32 | float64 | complex64 | complex128 | string | unsafePointer
  deriving DecidableEq, Repr

/-- The kind of a predeclared type. -/
def Basic.kind : Basic → Kind
  | .bool => .Bool | .int => .Int | .int8 => .Int8 | .int16 => .Int16
  | .int32 => .Int32 | .int64 => .Int64
  | .uint => .Uint | .uint8 => .Uint8 | .uint16 => .Uint16 | .uint32 => .Uint32
  | .uint64 => .Uint64 | .uintptr => .Uintptr
  | .float32 => .Float32 | .float64 => .Float64
  | .complex64 => .Complex64 | .complex128 => .Complex128
  | .string => .String | .unsafePointer => .UnsafePointer

/-- The name of a predeclared type, as `Type.Name()` reports it. -/
def Basic.name : Basic → String
  | .bool => "bool" | .int => "int" | .int8 => "int8" | .int16 => "int16"
  | .int32 => "int32" | .int64 => "int64"
  | .uint => "uint" | .uint8 => "uint8" | .uint16 => "uint16" | .uint32 => "uint32"
  | .uint64 => "uint64" | .uintptr => "uintptr"
  | .float32 => "float32" | .float64 => "float64"
  | .complex64 => "complex64" | .complex128 => "complex128"
  | .string => "string" | .unsafePointer => "Pointer"

/-- A Go type as `reflect.Type` presents it. Two Go types are identical
exactly when their descriptions are equal, so `==` on `reflect.Type` is
equality here. A defined type (`type Name Under`) is identified by its
package and name; struct, func and interface literals are kept as their
source text because the dialect never looks inside them. -/
inductive GoType where
  | basic (b : Basic)
  | named (pkg name : String) (under : GoType)
  | array (len : Nat) (elem : GoType)
  | slice (elem : GoType)
  | ptr (elem : GoType)
  | map (key elem : GoType)
  | chan (elem : GoType)
  | struct (fields : String)
  | func (signature : String)
  | interface (methods : String)
  deriving DecidableEq, Repr

/-- Go `Type.Kind()`. -/
def GoType.Kind : GoType → Kind
  | .basic b => b.kind
  | .named _ _ u => u.Kind
  | .array _ _ => .Array
  | .slice _ => .Slice
  | .ptr _ => .Ptr
  | .map _ _ => .Map
  | .chan _ => .Chan
  | .struct _ => .Struct
  | .func _ => .Func
  | .interface _ => .Interface

/-- Go `Type.Name()`: the name of a defined or predeclared type, and the
empty string for every other type. -/
def GoType.Name : GoType → String
  | .basic b => b.name
  | .named _ n _ => n
  | _ => ""

/-- Go `Type.Len()`: the length of an array type. The dialect calls it only
behind a test that the kind is `Array`; elsewhere the model answers 0. -/
def GoType.Len : GoType → Nat
  | .named _ _ u => u.Len
  | .array n _ => n
  | _ => 0

/-- Go `Type.Elem()`: the element type of an array, chan, map, pointer or
slice type. The dialect calls it only behind a test that the kind is `Array`
or `Slice`; for a type without elements the model answers `none`. -/
def GoType.Elem : GoType → Option GoType
  | .named _ _ u => u.Elem
  | .array _ e => some e
  | .slice e => some e
  | .ptr e => some e
  | .map _ e => some e
  | .chan e => some e
  | _ => none

/-- The result of a call into `reflect`: the value it returns, or the panic
it raises with its message. -/
inductive Result (α : Type) where
  | ok (a : α)
  | panic (msg : String)
  deriving DecidableEq, Repr

/-- A `reflect.Value`, as far as the dialect can tell values apart: the zero
`Value`, which holds nothing, or a valid value with its type and the
read-only flag that `reflect` puts on a value obtained through an unexported
struct field. -/
inductive Value where
  | zero
  | of (typ : GoType) (readOnly : Bool)
  deriving DecidableEq, Repr

/-- Go `Value.Kind()`: `Invalid` for the zero `Value`. -/
def Value.Kind : Value → Kind
  | .zero => .Invalid
  | .of typ _ => typ.Kind

/-- Go `Value.Type()`: the type of a valid value; on the zero `Value` it
panics. -/
def Value.Type : Value → Result GoType
  | .zero => .panic "reflect: call of reflect.Value.Type on zero Value"
  | .of typ _ => .ok typ

/-- Go `Value.CanInterface()`: whether `Interface` can be used without
panicking. -/
def Value.CanInterface : Value → Bool
  | .zero => false
  | .of _ readOnly => !readOnly

/-- Go `Value.Interface()`, as a type assertion on its result sees it: the
dynamic type of the interface value it returns, which for a struct value (the
only kind on which the dialect calls it) is the type of the value. It panics
on the zero `Value` and on a read-only value. -/
def Value.Interface : Value → Result GoType
  | .zero => .panic "reflect: call of reflect.Value.Interface on zero Value"
  | .of _ true =>
    .panic "reflect.Value.Interface: cannot return value obtained from unexported field or method"
  | .of typ false => .ok typ

/-- The type `uint8`, i.e. `reflect.TypeOf(uint8(0))`. -/
def uint8Type : GoType := .basic .uint8

/-- The type `time.Time`. -/
def timeType : GoType := .named "time" "Time" (.struct "wall uint64; ext int64; loc *Location")

/-- The type `Hstore`, declared as `type Hstore map[string]*string`;
`hstoreType` is `reflect.TypeOf(Hstore{})`. -/
def hstoreType : GoType :=
  .named "gorm" "Hstore" (.map (.basic .string) (.ptr (.basic .string)))

/-! ## Go maps with string keys -/

/-- A Go map with string keys. `nil` is the nil map; `make m` is an
allocated map whose entries `m` are listed in the order in which a `range`
loop over it visits them (Go leaves that order open, and every order is
some list). -/
inductive GoMap (α : Type) where
  | nil
  | make (m : AList (fun _ : String => α))

/-- Go `len(m)`: the number of entries, 0 for the nil map. -/
def GoMap.len {α : Type} : GoMap α → Nat
  | .nil => 0
  | .make m => m.entries.length

/-- Go `v, ok := m[k]`: `some v` when the key is present (`ok` true) and
`none` when it is absent, as it always is in the nil map. -/
def GoMap.get? {α : Type} : GoMap α → String → Option α
  | .nil, _ => none
  | .make m, k => m.lookup k

/-- The keys of a map, in iteration order. -/
def GoMap.keys {α : Type} : GoMap α → List String
  | .nil => []
  | .make m => m.keys

/-! ## The pieces of `fmt` and `strconv` the dialect calls -/

/-- The ASCII digit for a number below ten: Go `byte('0' + d)`. -/
def digitChar (d : Nat) : Char := Char.ofNat (48 + d)

/-- The digit loop of `fmt` for base 10: it peels the last digit of `u` until
`u` is below ten, writing in front of what is already written. The first
argument bounds the number of rounds; `u + 1` rounds are always enough. -/
def fmtDigits : Nat → Nat → List Char → List Char
  | 0, _, acc => acc
  | fuel + 1, u, acc =>
    if u < 10 then digitChar u :: acc
    else fmtDigits fuel (u / 10) (digitChar (u % 10) :: acc)

/-- How `fmt` prints an integer under `%d` and `%v`: a minus sign for a
negative number, then the decimal digits of its magnitude. -/
def fmtInt (i : Int) : List Char :=
  let ds := fmtDigits (i.natAbs + 1) i.natAbs []
  if i < 0 then '-' :: ds else ds

/-- An operand of `Sprintf`: the dialect passes integers and strings. -/
inductive Arg where
  | int (i : Int)
  | str (s : String)

/-- What one formatting verb prints for one operand. `%v` prints either
operand plainly, `%d` an integer and `%s` a string; a verb that does not fit
its operand prints Go's `%!verb(type=value)` marker. -/
def fmtVerb (verb : Char) (a : Arg) : List Char :=
  match a with
  | .int i =>
    if verb = 'v' ∨ verb = 'd' then fmtInt i
    else '%' :: '!' :: verb :: ("(int=".data ++ fmtInt i ++ [')'])
  | .str s =>
    if verb = 'v' ∨ verb = 's' then s.data
    else '%' :: '!' :: verb :: ("(string=".data ++ s.data ++ [')'])

/-- The scan of `Sprintf` over the format: text is copied, `%%` prints a
percent sign, and every other `%` verb consumes the next operand (printing
`%!verb(MISSING)` when none is left). Flags, widths and the report of
surplus operands are not modelled; the dialect uses none of them. -/
def sprintfAux : List Char → List Arg → List Char
  | [], _ => []
  | [c], _ => [c]
  | c :: d :: rest, args =>
    if c = '%' then
      if d = '%' then '%' :: sprintfAux rest args
      else match args with
        | [] => '%' :: '!' :: d :: ("(MISSING)".data ++ sprintfAux rest [])
        | a :: as => fmtVerb d a ++ sprintfAux rest as
    else c :: sprintfAux (d :: rest) args

/-- Go `fmt.Sprintf`. -/
def Sprintf (format : String) (args : List Arg) : String :=
  String.mk (sprintfAux format.data args)

/-- The two ways `strconv` rejects a number. -/
inductive NumError where
  | ErrSyntax
  | ErrRange
  deriving DecidableEq, Repr

/-- The digit loop of `strconv.ParseUint(s, 10, bitSize)`, with `n` the
number read so far. A byte that is not a decimal digit is a syntax error with
result 0. When the next digit would carry the number past `2^bitSize - 1`
(or past what 64 bits hold), the loop stops at once with that maximum and a
range error. -/
def parseUintLoop (bitSize : Nat) : List Char → Nat → Nat × Option NumError
  | [], n => (n, none)
  | c :: cs, n =>
    if c.toNat < 48 ∨ 57 < c.toNat then (0, some .ErrSyntax)
    else if (2 ^ 64 - 1) / 10 + 1 ≤ n then (2 ^ bitSize - 1, some .ErrRange)
    else if 2 ^ bitSize - 1 < n * 10 + (c.toNat - 48) then (2 ^ bitSize - 1, some .ErrRange)
    else parseUintLoop bitSize cs (n * 10 + (c.toNat - 48))

/-- Go `strconv.ParseUint(s, 10, bitSize)` for `bitSize` 32 or 64. -/
def ParseUint (s : List Char) (bitSize : Nat) : Nat × Option NumError :=
  if s = [] then (0, some .ErrSyntax) else parseUintLoop bitSize s 0

/-- Go `strconv.ParseInt(s, 10, bitSize)`: an optional sign, then
`ParseUint`. A syntax error gives 0; a magnitude out of range is clamped to
the largest or smallest `bitSize`-bit integer and reported as a range
error. -/
def ParseInt (s : List Char) (bitSize : Nat) : Int × Option NumError :=
  if s = [] then (0, some .ErrSyntax)
  else
    let neg := s.head? = some '-'
    let body := if s.head? = some '+' ∨ s.head? = some '-' then s.tail else s
    let r := ParseUint body bitSize
    if r.2 = some .ErrSyntax then (0, some .ErrSyntax)
    else
      let cutoff : Nat := 2 ^ (bitSize - 1)
      if ¬ neg ∧ cutoff ≤ r.1 then ((cutoff : Int) - 1, some .ErrRange)
      else if neg ∧ cutoff < r.1 then (-(cutoff : Int), some .ErrRange)
      else (if neg then -(r.1 : Int) else (r.1 : Int), none)

/-- Go `strconv.Atoi(s)`, which is `ParseInt(s, 10, 0)` converted to `int`;
`intSize` is `strconv.IntSize`, the width of `int` on the platform (32 or
64). The number is returned together with the error, if any. -/
def Atoi (intSize : Nat) (s : String) : Int × Option NumError :=
  ParseInt s.data intSize

/-- What the dialect needs from the Go installation it runs on and does not
define itself: the width of `int` (`strconv.IntSize`, 32 or 64) and the
function `strings.ToLower`. -/
structure GoRuntime where
  IntSize : Nat
  ToLower : String → String

/-- Lower-casing of the ASCII letters, on which `strings.ToLower` agrees for
every string made of ASCII characters. -/
def asciiToLower (s : String) : String :=
  String.mk (s.data.map fun c =>
    if 65 ≤ c.toNat ∧ c.toNat ≤ 90 then Char.ofNat (c.toNat + 32) else c)

/-- A 64-bit Go installation, used to run the definitions on ASCII names. -/
def go64 : GoRuntime := { IntSize := 64, ToLower := asciiToLower }

/-! ## The dialect -/

/-- The result of a call that may panic: the returned string, or the panic
with its message. -/
inductive Outcome where
  | ret (s : String)
  | panic (msg : String)
  deriving DecidableEq, Repr

/-- Go `postgres.BindVar`. -/
def postgres.BindVar (i : Int) : String :=
  Sprintf "$%v" [.int i]

/-- Go `isByteArrayOrSlice`. The `&&` reaches `value.Type()` only after the
kind test has succeeded. -/
def isByteArrayOrSlice (value : Value) : Result Bool :=
  if value.Kind = .Array ∨ value.Kind = .Slice then
    match value.Type with
    | .panic msg => .panic msg
    | .ok typ => .ok (decide (typ.Elem = some uint8Type))
  else .ok false

/-- Go `isUUID`. The `||` reaches `value.Type()` only when the kind is
`Array`. -/
def isUUID (go : GoRuntime) (value : Value) : Result Bool :=
  if value.Kind ≠ .Array then .ok false
  else
    match value.Type with
    | .panic msg => .panic msg
    | .ok typ =>
      if typ.Len ≠ 16 then .ok false
      else
        let typename := typ.Name
        let lower := go.ToLower typename
        .ok ("uuid" = lower || "guid" = lower)

/-- The statement at the end of `DataTypeOf`: the panic with the "invalid sql
type" message, whose operands are evaluated first, so that a panic of
`dataValue.Type()` takes its place. -/
def invalidSqlType (dataValue : Value) : Outcome :=
  match dataValue.Type with
  | .panic msg => .panic msg
  | .ok typ =>
    .panic (Sprintf "invalid sql type %s (%s) for postgres"
      [.str typ.Name, .str (kindString dataValue.Kind)])

/-- Go `postgres.DataTypeOf`. The `switch` returns from the branches that
find a type name; every other path leaves the `switch` and reaches the
`panic` at the end of the function. A panic raised inside `reflect` ends the
call with that panic. -/
def postgres.DataTypeOf (go : GoRuntime) (dataValue : Value) (tagSettings : GoMap String) :
    Outcome :=
  let size : Int :=
    match tagSettings.get? "SIZE" with
    | some num => (Atoi go.IntSize num).1
    | none => 0
  match dataValue.Kind with
  | .Bool => .ret "boolean"
  | .Int | .Int8 | .Int16 | .Int32 | .Uint | .Uint8 | .Uint16 | .Uint32 | .Uintptr =>
    if (tagSettings.get? "AUTO_INCREMENT").isSome then .ret "serial" else .ret "integer"
  | .Int64 | .Uint64 =>
    if (tagSettings.get? "AUTO_INCREMENT").isSome then .ret "bigserial" else .ret "bigint"
  | .Float32 | .Float64 => .ret "numeric"
  | .String =>
    if 0 < size ∧ size < 65532 then .ret (Sprintf "varchar(%d)" [.int size])
    else .ret "text"
  | .Struct =>
    match dataValue.Interface with
    | .panic msg => .panic msg
    | .ok dynamicType =>
      if dynamicType = timeType then .ret "timestamp with time zone"
      else invalidSqlType dataValue
  | .Map =>
    match dataValue.Type with
    | .panic msg => .panic msg
    | .ok typ => if typ = hstoreType then .ret "hstore" else invalidSqlType dataValue
  | _ =>
    match isByteArrayOrSlice dataValue with
    | .panic msg => .panic msg
    | .ok true => .ret "bytea"
    | .ok false =>
      match isUUID go dataValue with
      | .panic msg => .panic msg
      | .ok true => .ret "uuid"
      | .ok false => invalidSqlType dataValue

/-- The part of `commonDialect` (declared in another file of the package)
that the existence checks call. `RawScanInt scope count query args` runs the
query and scans its single row into the integer variable whose value was
`count`; it yields the value of that variable afterwards, which is `count`
itself when nothing was written, and the scope in which any error has been
recorded. -/
structure commonDialect (Scope : Type) where
  RawScanInt : Scope → Int → String → List String → Int × Scope

/-- Go `type postgres struct { commonDialect }`. -/
structure postgres (Scope : Type) where
  commonDialect : commonDialect Scope

/-- Go `postgres.HasIndex`: the answer and the scope after the query. -/
def postgres.HasIndex {Scope : Type} (s : postgres Scope) (scope : Scope)
    (tableName indexName : String) : Bool × Scope :=
  let count : Int := 0
  let r := s.commonDialect.RawScanInt scope count
    "SELECT count(*) FROM pg_indexes WHERE tablename = ? AND indexname = ?"
    [tableName, indexName]
  (decide (r.1 > 0), r.2)

/-- Go `postgres.HasTable`: the answer and the scope after the query. -/
def postgres.HasTable {Scope : Type} (s : postgres Scope) (scope : Scope)
    (tableName : String) : Bool × Scope :=
  let count : Int := 0
  let r := s.commonDialect.RawScanInt scope count
    "SELECT count(*) FROM INFORMATION_SCHEMA.tables WHERE table_name = ? AND table_type = 'BASE TABLE'"
    [tableName]
  (decide (r.1 > 0), r.2)

/-- Go `postgres.HasColumn`: the answer and the scope after the query. -/
def postgres.HasColumn {Scope : Type} (s : postgres Scope) (scope : Scope)
    (tableName columnName : String) : Bool × Scope :=
  let count : Int := 0
  let r := s.commonDialect.RawScanInt scope count
    "SELECT count(*) FROM INFORMATION_SCHEMA.columns WHERE table_name = ? AND column_name = ?"
    [tableName, columnName]
  (decide (r.1 > 0), r.2)

/-- Go `postgres.LastInsertIdReturningSuffix`. -/
def postgres.LastInsertIdReturningSuffix (tableName key : String) : String :=
  Sprintf "RETURNING %v.%v" [.str tableName, .str key]

/-- Go `postgres.SupportLastInsertId`. -/
def postgres.SupportLastInsertId : Bool := false

/-! ## The `Hstore` type and its codec -/

/-- Go `sql.NullString`; its zero value is the SQL null-string
`{String: "", Valid: false}`. -/
structure NullString where
  String : String
  Valid : Bool
  deriving DecidableEq, Repr

/-- Go `type Hstore map[string]*string`; a nil `*string` is `none`. -/
abbrev Hstore := GoMap (Option String)

/-- The hstore codec of the database driver (`hstore.Hstore` of package
`github.com/lib/pq/hstore`), which the repository imports and does not
define. `V` is the type of the non-nil driver values and `E` the type of the
non-nil errors, so `none` is Go's `nil` in both. `Value m` is
`hstore.Hstore{Map: m}.Value()`; `Scan value` is the `Map` field of a fresh
`hstore.Hstore{}` after its `Scan(value)`, with the error it returned. -/
structure PqHstore (V E : Type) where
  Value : GoMap NullString → Option V × Option E
  Scan : Option V → GoMap NullString × Option E

/-- The `sql.NullString` that the loop of `Hstore.Value` builds for one
entry: it starts as the zero value and becomes valid, with the pointed-to
string, when the pointer is not nil. -/
def nullStringOf (value : Option String) : NullString :=
  match value with
  | some str => { String := str, Valid := true }
  | none => { String := "", Valid := false }

/-- The map that `Hstore.Value` fills for the driver: it starts empty, and
the `range` loop over `h` stores one `sql.NullString` under each key. -/
def Hstore.nullStrings (h : Hstore) : GoMap NullString :=
  match h with
  | .nil => .make ∅
  | .make m =>
    .make (m.entries.foldl (fun acc kv => acc.insert kv.1 (nullStringOf kv.2)) ∅)

/-- Go `Hstore.Value`: the driver value and the error. -/
def Hstore.Value {V E : Type} (pq : PqHstore V E) (h : Hstore) : Option V × Option E :=
  if h.len = 0 then (none, none)
  else pq.Value (Hstore.nullStrings h)

/-- The loop of `Hstore.Scan` over the decoded map: for each key it reads
`hstore.Map[k]` again (the zero `sql.NullString` if the key were absent) and
stores a pointer to its string when it is valid and nil otherwise. -/
def Hstore.fromNullStrings (decoded : GoMap NullString) : Hstore :=
  .make (decoded.keys.foldl (fun acc k =>
    let entry := (decoded.get? k).getD { String := "", Valid := false }
    if entry.Valid then acc.insert k (some entry.String) else acc.insert k none) ∅)

/-- Go `(*Hstore).Scan`: the receiver after the call, and the error. -/
def Hstore.Scan {V E : Type} (pq : PqHstore V E) (h : Hstore) (value : Option V) :
    Hstore × Option E :=
  let decoded := pq.Scan value
  match decoded.2 with
  | some err => (h, some err)
  | none =>
    if decoded.1.len = 0 then (h, none)
    else (Hstore.fromNullStrings decoded.1, none)

/-! ## An instance of the driver codec

The codec of `github.com/lib/pq/hstore` as that library defines it. The
library works on bytes; here a text is a list of characters, each standing
for the bytes of its UTF-8 encoding. The bytes of a character that is not
ASCII are none of the ASCII bytes the scanner looks for, so the scanner
appends them all to the pair it is reading, as it does here with the
character; the count of bytes is kept by `byteLength`. It is the instance on
which the assumptions that the theorems make about the driver are checked. -/

/-- The escaping inside `hQuote`: every backslash and every double quote
gets a backslash in front. -/
def pqEscape (cs : List Char) : List Char :=
  cs.flatMap fun c => if c = Char.ofNat 92 ∨ c = Char.ofNat 34 then [Char.ofNat 92, c] else [c]

/-- The quoting `hQuote` of one string: the escaped string in double
quotes. -/
def pqQuote (str : String) : List Char :=
  Char.ofNat 34 :: pqEscape str.data ++ [Char.ofNat 34]

/-- The quoting `hQuote` of a value: `NULL` for the null-string. -/
def pqQuoteValue (v : NullString) : List Char :=
  if v.Valid then pqQuote v.String else "NULL".data

/-- The text of one pair: the quoted key, `=>`, and the quoted value. -/
def pqPair (kv : Σ _ : String, NullString) : List Char :=
  pqQuote kv.1 ++ "=>".data ++ pqQuoteValue kv.2

/-- The text `hstore.Hstore.Value` produces: the quoted pairs joined by
commas; the nil map gives the nil driver value. -/
def pqValue (m : GoMap NullString) : Option (List Char) × Option String :=
  match m with
  | .nil => (none, none)
  | .make a => (some (List.intercalate [','] (a.entries.map pqPair)), none)

/-- The number of bytes of a text: every character counts with the length of
its UTF-8 encoding. -/
def byteLength (text : List Char) : Nat :=
  (text.map Char.utf8Size).sum

/-- The variables of the loop of `hstore.Hstore.Scan`. -/
structure PqScanner where
  Map : AList (fun _ : String => NullString)
  key : List Char
  val : List Char
  pi : Nat
  inQuote : Bool
  didQuote : Bool
  sawSlash : Bool

/-- The statement `pair[pi] = append(pair[pi], b)`. -/
def PqScanner.put (st : PqScanner) (b : Char) : PqScanner :=
  if st.pi = 0 then { st with key := st.key ++ [b] } else { st with val := st.val ++ [b] }

/-- The map after the pair read so far is stored: an unquoted text of four
bytes that is `null` in any letter case is the null-string, everything else
a valid string. -/
def PqScanner.store (st : PqScanner) : AList (fun _ : String => NullString) :=
  if st.didQuote = false ∧ byteLength st.val = 4 ∧ asciiToLower (String.mk st.val) = "null" then
    st.Map.insert (String.mk st.key) { String := "", Valid := false }
  else
    st.Map.insert (String.mk st.key) { String := String.mk st.val, Valid := true }

/-- One round of the loop of `hstore.Hstore.Scan`, on the byte `b`. -/
def PqScanner.step (st : PqScanner) (b : Char) : PqScanner :=
  if st.sawSlash then { st.put b with sawSlash := false }
  else if b = Char.ofNat 92 then { st with sawSlash := true }
  else if b = Char.ofNat 34 then { st with inQuote := !st.inQuote, didQuote := true }
  else if st.inQuote then st.put b
  else if b = ' ' ∨ b = Char.ofNat 9 ∨ b = Char.ofNat 10 ∨ b = Char.ofNat 13 then st
  else if b = '=' then st
  else if b = '>' then { st with pi := 1, didQuote := false }
  else if b = ',' then { st with Map := st.store, key := [], val := [], pi := 0 }
  else st.put b

/-- The map `hstore.Hstore.Scan` leaves in `Map`: nil for the nil value, and
otherwise the pairs read from the text; the last pair is stored when the
index of the last byte is positive, that is when the text has more than one
byte. -/
def pqScan (value : Option (List Char)) : GoMap NullString × Option String :=
  match value with
  | none => (.nil, none)
  | some bytes =>
    let st := bytes.foldl PqScanner.step
      { Map := ∅, key := [], val := [], pi := 0,
        inQuote := false, didQuote := false, sawSlash := false }
    if 2 ≤ byteLength bytes then (.make st.store, none) else (.make st.Map, none)

/-- The codec of `github.com/lib/pq/hstore`. -/
def pqHstore : PqHstore (List Char) String := { Value := pqValue, Scan := pqScan }

/-! ## Decimal numerals, as the specification reads them -/

/-- The number a list of decimal digits denotes, most significant first. -/
def decimalDigitsValue (ds : List Char) : Nat :=
  ds.foldl (fun n c => n * 10 + (c.toNat - 48)) 0

/-- A non-empty list of the characters `0` to `9`. -/
def isDecimalDigits (ds : List Char) : Bool :=
  !ds.isEmpty && ds.all fun c => decide (48 ≤ c.toNat ∧ c.toNat ≤ 57)

/-- The integer that a string denotes in decimal, if it denotes one: an
optional sign `+` or `-` followed by one or more decimal digits and nothing
else. There is no bound on the size of the number. -/
def decimalInteger (s : String) : Option Int :=
  match s.data with
  | [] => none
  | c :: ds =>
    if c = '+' then (if isDecimalDigits ds then some (decimalDigitsValue ds : Int) else none)
    else if c = '-' then (if isDecimalDigits ds then some (-(decimalDigitsValue ds : Int)) else none)
    else if isDecimalDigits (c :: ds) then some (decimalDigitsValue (c :: ds) : Int) else none

/-! ## Unmappable values, as the specification describes them -/

/-- The kinds for which the type mapping always has a name or decides by the
exact type: Bool, the integer and float kinds, String, Struct and Map. -/
def namedKinds : List Kind :=
  [.Bool, .Int, .Int8, .Int16, .Int32, .Int64, .Uint, .Uint8, .Uint16, .Uint32, .Uint64,
    .Uintptr, .Float32, .Float64, .String, .Struct, .Map]

/-- An array or slice whose element type is `uint8`. -/
def IsByteArrayOrSlice (v : Value) : Prop :=
  (v.Kind = .Array ∨ v.Kind = .Slice) ∧ ∃ typ, v.Type = .ok typ ∧ typ.Elem = some uint8Type

/-- A UUID-shaped array: an array of length 16 whose type name is `uuid` or
`guid` once lower-cased. -/
def IsUUIDShaped (go : GoRuntime) (v : Value) : Prop :=
  v.Kind = .Array ∧ ∃ typ, v.Type = .ok typ ∧ typ.Len = 16 ∧
    (go.ToLower typ.Name = "uuid" ∨ go.ToLower typ.Name = "guid")

/-- An unmappable value: a struct other than `time.Time`, a map whose type is
not `Hstore`, or a value of any remaining kind that is neither an array or
slice of `uint8` nor a UUID-shaped array. -/
def Unmappable (go : GoRuntime) (v : Value) : Prop :=
  (v.Kind = .Struct ∧ v.Type ≠ .ok timeType) ∨
    (v.Kind = .Map ∧ v.Type ≠ .ok hstoreType) ∨
    (v.Kind ∉ namedKinds ∧ ¬ IsByteArrayOrSlice v ∧ ¬ IsUUIDShaped go v)

/-- The integer kinds, the only ones for which the type mapping looks at the
AUTO_INCREMENT tag. -/
def integerKinds : List Kind :=
  [.Int, .Int8, .Int16, .Int32, .Int64, .Uint, .Uint8, .Uint16, .Uint32, .Uint64, .Uintptr]

/-- A driver codec whose decoder rejects every value that is not null, with
the error "hstore: malformed value". The driver of the repository has no
such decoder; this one exercises the error path of `Hstore.Scan`. -/
def rejectingHstore : PqHstore (List Char) String :=
  { Value := pqValue
    Scan := fun value =>
      match value with
      | none => (.nil, none)
      | some _ => (.make ∅, some "hstore: malformed value") }

/-! ## Properties of the type mapping -/

/-- C1: for a value of kind Int, Int8, Int16, Int32, Uint, Uint8, Uint16,
Uint32 or Uintptr, `DataTypeOf` returns "serial" when the tag settings hold
the key AUTO_INCREMENT (whatever its value) and "integer" when they do not;
for a value of kind Int64 or Uint64 it returns "bigserial" and "bigint"
respectively. -/
theorem C1_integer_kinds (go : GoRuntime) (v : Value) (tagSettings : GoMap String) :
    (v.Kind ∈ [Kind.Int, Kind.Int8, Kind.Int16, Kind.Int32, Kind.Uint, Kind.Uint8,
        Kind.Uint16, Kind.Uint32, Kind.Uintptr] →
      ((∃ val, tagSettings.get? "AUTO_INCREMENT" = some val) →
        postgres.DataTypeOf go v tagSettings = .ret "serial") ∧
      (tagSettings.get? "AUTO_INCREMENT" = none →
        postgres.DataTypeOf go v tagSettings = .ret "integer")) ∧
    (v.Kind ∈ [Kind.Int64, Kind.Uint64] →
      ((∃ val, tagSettings.get? "AUTO_INCREMENT" = some val) →
        postgres.DataTypeOf go v tagSettings = .ret "bigserial") ∧
      (tagSettings.get? "AUTO_INCREMENT" = none →
        postgres.DataTypeOf go v tagSettings = .ret "bigint")) := by
  refine ⟨fun hk => ⟨?_, ?_⟩, fun hk => ⟨?_, ?_⟩⟩
  · rintro ⟨val, hval⟩
    simp only [List.mem_cons, List.mem_singleton, List.not_mem_nil, or_false] at hk
    rcases hk with h | h | h | h | h | h | h | h | h <;>
      simp [postgres.DataTypeOf, h, hval]
  · intro hnone
    simp only [List.mem_cons, List.mem_singleton, List.not_mem_nil, or_false] at hk
    rcases hk with h | h | h | h | h | h | h | h | h <;>
      simp [postgres.DataTypeOf, h, hnone]
  · rintro ⟨val, hval⟩
    simp only [List.mem_cons, List.mem_singleton, List.not_mem_nil, or_false] at hk
    rcases hk with h | h <;> simp [postgres.DataTypeOf, h, hval]
  · intro hnone
    simp only [List.mem_cons, List.mem_singleton, List.not_mem_nil, or_false] at hk
    rcases hk with h | h <;> simp [postgres.DataTypeOf, h, hnone]

/-- C1 at concrete values: an `int` field tagged AUTO_INCREMENT with the
empty string is "serial", and an untagged `uint64` field is "bigint". -/
theorem C1_integer_kinds_witness :
    postgres.DataTypeOf go64 (.of (.basic .int) false) (.make (AList.insert "AUTO_INCREMENT" "" ∅))
        = .ret "serial" ∧
      postgres.DataTypeOf go64 (.of (.basic .uint64) false) .nil = .ret "bigint" :=
  ⟨((C1_integer_kinds go64 (.of (.basic .int) false)
        (.make (AList.insert "AUTO_INCREMENT" "" ∅))).1 (by decide)).1 ⟨"", by decide⟩,
   ((C1_integer_kinds go64 (.of (.basic .uint64) false) .nil).2 (by decide)).2 (by decide)⟩

/-! ## Decimal printing -/

theorem digitChar_toNat (d : Nat) (h : d < 10) : (digitChar d).toNat = 48 + d := by
  interval_cases d <;> decide

theorem digitChar_eq_core (d : Nat) (h : d < 10) : digitChar d = Nat.digitChar d := by
  interval_cases d <;> decide

theorem fmtDigits_acc (fuel u : Nat) (acc : List Char) :
    fmtDigits fuel u acc = fmtDigits fuel u [] ++ acc := by
  induction fuel generalizing u acc with
  | zero => simp [fmtDigits]
  | succ n ih =>
    simp only [fmtDigits]
    split
    · simp
    · rw [ih, ih (u / 10) [digitChar (u % 10)]]; simp

/-- The digit loop agrees with the one Lean prints natural numbers with. -/
theorem fmtDigits_eq_toDigits (fuel u : Nat) (acc : List Char) :
    fmtDigits fuel u acc = Nat.toDigitsCore 10 fuel u acc := by
  induction fuel generalizing u acc with
  | zero => simp [fmtDigits, Nat.toDigitsCore]
  | succ n ih =>
    simp only [fmtDigits, Nat.toDigitsCore]
    by_cases hu : u < 10
    · have h0 : u / 10 = 0 := Nat.div_eq_of_lt hu
      simp [hu, h0, Nat.mod_eq_of_lt hu, digitChar_eq_core u hu]
    · have h0 : u / 10 ≠ 0 := by omega
      simp [hu, h0, ih, digitChar_eq_core (u % 10) (Nat.mod_lt _ (by norm_num))]

theorem fmtInt_ofNat (n : Nat) : fmtInt (n : Int) = (Nat.repr n).data := by
  simp [fmtInt, fmtDigits_eq_toDigits, Nat.repr, Nat.toDigits, List.asString]

theorem fmtInt_eq_toString (i : Int) : String.mk (fmtInt i) = toString i := by
  cases i with
  | ofNat n =>
    have h := fmtInt_ofNat n
    simp only [Int.ofNat_eq_coe]
    rw [h]
    rfl
  | negSucc n =>
    have h := fmtInt_ofNat (n + 1)
    have hlt : Int.negSucc n < 0 := Int.negSucc_lt_zero n
    have habs : (Int.negSucc n).natAbs = n + 1 := rfl
    have hpos : ¬ (((n + 1 : Nat) : Int) < 0) := by omega
    simp only [fmtInt, hpos, if_false, Int.natAbs_ofNat] at h
    simp only [fmtInt, hlt, if_true, habs]
    rw [h]
    rfl

theorem decimalDigitsValue_append (xs : List Char) (d : Char) :
    decimalDigitsValue (xs ++ [d]) = decimalDigitsValue xs * 10 + (d.toNat - 48) := by
  simp [decimalDigitsValue, List.foldl_append]

theorem isDecimalDigits_iff (ds : List Char) :
    isDecimalDigits ds = true ↔ ds ≠ [] ∧ ∀ c ∈ ds, 48 ≤ c.toNat ∧ c.toNat ≤ 57 := by
  cases ds <;> simp [isDecimalDigits]

theorem fmtDigits_step (fuel u : Nat) :
    fmtDigits (fuel + 1) u [] =
      if u < 10 then [digitChar u] else fmtDigits fuel (u / 10) [] ++ [digitChar (u % 10)] := by
  simp only [fmtDigits]
  split
  · rfl
  · rw [fmtDigits_acc]

/-- With more rounds than the number is large, the digit loop writes a
non-empty list of digits that denotes the number. -/
theorem fmtDigits_spec (fuel u : Nat) (h : u < fuel) :
    isDecimalDigits (fmtDigits fuel u []) = true ∧
      decimalDigitsValue (fmtDigits fuel u []) = u := by
  induction fuel generalizing u with
  | zero => omega
  | succ n ih =>
    rw [fmtDigits_step]
    by_cases hu : u < 10
    · simp only [hu, if_true]
      refine ⟨?_, ?_⟩
      · rw [isDecimalDigits_iff]
        refine ⟨by simp, ?_⟩
        intro c hc
        simp only [List.mem_singleton] at hc
        subst hc
        rw [digitChar_toNat u hu]; omega
      · simp [decimalDigitsValue, digitChar_toNat u hu]
    · simp only [hu, if_false]
      have hm : u % 10 < 10 := Nat.mod_lt _ (by norm_num)
      obtain ⟨hd, hv⟩ := ih (u / 10) (by omega)
      rw [isDecimalDigits_iff] at hd
      refine ⟨?_, ?_⟩
      · rw [isDecimalDigits_iff]
        refine ⟨by simp, ?_⟩
        intro c hc
        rcases List.mem_append.1 hc with hc | hc
        · exact hd.2 c hc
        · simp only [List.mem_singleton] at hc
          subst hc
          rw [digitChar_toNat _ hm]; omega
      · rw [decimalDigitsValue_append, hv, digitChar_toNat _ hm]; omega

/-- Reading back what `fmt` prints for an integer gives the integer. -/
theorem decimalInteger_fmtInt (i : Int) : decimalInteger (String.mk (fmtInt i)) = some i := by
  obtain ⟨hd, hv⟩ := fmtDigits_spec (i.natAbs + 1) i.natAbs (Nat.lt_succ_self _)
  by_cases hi : i < 0
  · have hne : ('-' : Char) ≠ '+' := by decide
    simp only [decimalInteger, fmtInt, hi, if_true, hne, if_false, hd, hv]
    simp only [Option.some.injEq]
    omega
  · simp only [fmtInt, hi, if_false]
    rw [isDecimalDigits_iff] at hd
    obtain ⟨c, ds, hcd⟩ := List.exists_cons_of_ne_nil hd.1
    have hc := hd.2 c (by rw [hcd]; exact List.mem_cons_self _ _)
    have hplus : c ≠ '+' := by
      intro h; rw [h] at hc; revert hc; decide
    have hminus : c ≠ '-' := by
      intro h; rw [h] at hc; revert hc; decide
    have hd2 : isDecimalDigits (c :: ds) = true := by
      rw [isDecimalDigits_iff, ← hcd]; exact hd
    rw [hcd] at hv
    simp only [decimalInteger, hcd, hplus, hminus, if_false, hd2, if_true, hv]
    simp only [Option.some.injEq]
    omega

theorem fmtInt_injective : Function.Injective fmtInt := by
  intro i j h
  have hi := decimalInteger_fmtInt i
  rw [h, decimalInteger_fmtInt j] at hi
  exact (Option.some.inj hi).symm

/-! ## Properties of the placeholders and suffixes -/

/-- C8: `BindVar i` is the dollar sign followed by the decimal representation
of `i`, and distinct indices give distinct placeholders. -/
theorem C8_bindVar (i : Int) :
    postgres.BindVar i = "$" ++ toString i ∧ Function.Injective postgres.BindVar := by
  have hform : ∀ j : Int, postgres.BindVar j = String.mk ('$' :: fmtInt j) := by
    intro j
    simp [postgres.BindVar, Sprintf, sprintfAux, fmtVerb]
  refine ⟨?_, ?_⟩
  · rw [hform, ← fmtInt_eq_toString]
    rfl
  · intro a b hab
    rw [hform, hform] at hab
    have h := congrArg String.data hab
    simp only [List.cons.injEq, true_and] at h
    exact fmtInt_injective h

/-- C9: the suffix is "RETURNING ", the table name, a dot and the key, and
the dialect never supports a last-insert id. -/
theorem C9_lastInsertId (tableName key : String) :
    postgres.LastInsertIdReturningSuffix tableName key
        = "RETURNING " ++ tableName ++ "." ++ key ∧
      postgres.SupportLastInsertId = false := by
  refine ⟨?_, rfl⟩
  apply String.ext
  simp only [postgres.LastInsertIdReturningSuffix, Sprintf, String.data_append]
  simp [sprintfAux, fmtVerb]

/-! ## Properties of the existence checks -/

/-- C10: each of `HasIndex`, `HasTable` and `HasColumn` answers true exactly
when the count that its catalogue query left in the count variable is
strictly positive, and answers false when the query left the variable at
its initial 0, as it does when it writes nothing. -/
theorem C10_existence_checks {Scope : Type} (s : postgres Scope) (scope : Scope)
    (tableName indexName columnName : String) :
    (((s.HasIndex scope tableName indexName).1 = true ↔
        0 < (s.commonDialect.RawScanInt scope 0
          "SELECT count(*) FROM pg_indexes WHERE tablename = ? AND indexname = ?"
          [tableName, indexName]).1) ∧
      ((s.commonDialect.RawScanInt scope 0
          "SELECT count(*) FROM pg_indexes WHERE tablename = ? AND indexname = ?"
          [tableName, indexName]).1 = 0 →
        (s.HasIndex scope tableName indexName).1 = false)) ∧
    (((s.HasTable scope tableName).1 = true ↔
        0 < (s.commonDialect.RawScanInt scope 0
          "SELECT count(*) FROM INFORMATION_SCHEMA.tables WHERE table_name = ? AND table_type = 'BASE TABLE'"
          [tableName]).1) ∧
      ((s.commonDialect.RawScanInt scope 0
          "SELECT count(*) FROM INFORMATION_SCHEMA.tables WHERE table_name = ? AND table_type = 'BASE TABLE'"
          [tableName]).1 = 0 →
        (s.HasTable scope tableName).1 = false)) ∧
    (((s.HasColumn scope tableName columnName).1 = true ↔
        0 < (s.commonDialect.RawScanInt scope 0
          "SELECT count(*) FROM INFORMATION_SCHEMA.columns WHERE table_name = ? AND column_name = ?"
          [tableName, columnName]).1) ∧
      ((s.commonDialect.RawScanInt scope 0
          "SELECT count(*) FROM INFORMATION_SCHEMA.columns WHERE table_name = ? AND column_name = ?"
          [tableName, columnName]).1 = 0 →
        (s.HasColumn scope tableName columnName).1 = false)) := by
  refine ⟨⟨?_, ?_⟩, ⟨?_, ?_⟩, ⟨?_, ?_⟩⟩
  · simp [postgres.HasIndex]
  · intro h; simp [postgres.HasIndex, h]
  · simp [postgres.HasTable]
  · intro h; simp [postgres.HasTable, h]
  · simp [postgres.HasColumn]
  · intro h; simp [postgres.HasColumn, h]

/-- C10 on a catalogue in which the index query counts two rows, the table
query fails and writes nothing, and the column query counts no row. -/
theorem C10_existence_checks_witness :
    (@postgres.HasIndex Unit
        ⟨⟨fun scope count query _ =>
          if query = "SELECT count(*) FROM pg_indexes WHERE tablename = ? AND indexname = ?"
          then (2, scope) else (count, scope)⟩⟩ () "users" "idx_users_name").1 = true ∧
      (@postgres.HasTable Unit
        ⟨⟨fun scope count query _ =>
          if query = "SELECT count(*) FROM pg_indexes WHERE tablename = ? AND indexname = ?"
          then (2, scope) else (count, scope)⟩⟩ () "users").1 = false :=
  ⟨((@C10_existence_checks Unit _ () "users" "idx_users_name" "name").1.1).2
      (by decide),
   ((@C10_existence_checks Unit _ () "users" "idx_users_name" "name").2.1.2)
      (by decide)⟩

/-- C3: whatever the tag settings, `DataTypeOf` returns "boolean" for a Bool,
"numeric" for a Float32 or Float64, "timestamp with time zone" for a struct
whose dynamic type is `time.Time`, and "hstore" for a map whose type is
exactly `Hstore`. -/
theorem C3_fixed_names (go : GoRuntime) (v : Value) (tagSettings : GoMap String) :
    (v.Kind = Kind.Bool → postgres.DataTypeOf go v tagSettings = .ret "boolean") ∧
    (v.Kind = Kind.Float32 ∨ v.Kind = Kind.Float64 →
      postgres.DataTypeOf go v tagSettings = .ret "numeric") ∧
    (v.Kind = Kind.Struct ∧ v.Interface = .ok timeType →
      postgres.DataTypeOf go v tagSettings = .ret "timestamp with time zone") ∧
    (v.Kind = Kind.Map ∧ v.Type = .ok hstoreType →
      postgres.DataTypeOf go v tagSettings = .ret "hstore") := by
  refine ⟨?_, ?_, ?_, ?_⟩
  · intro h; simp [postgres.DataTypeOf, h]
  · rintro (h | h) <;> simp [postgres.DataTypeOf, h]
  · rintro ⟨h, ht⟩; simp [postgres.DataTypeOf, h, ht]
  · rintro ⟨h, ht⟩; simp [postgres.DataTypeOf, h, ht]

/-- C3 at concrete values: a `bool`, a `float64`, a `time.Time` and an
`Hstore`, the last two under tag settings that carry a SIZE. -/
theorem C3_fixed_names_witness :
    postgres.DataTypeOf go64 (.of (.basic .bool) false) .nil = .ret "boolean" ∧
      postgres.DataTypeOf go64 (.of (.basic .float64) false) .nil = .ret "numeric" ∧
      postgres.DataTypeOf go64 (.of timeType false) (.make (AList.insert "SIZE" "12" ∅))
        = .ret "timestamp with time zone" ∧
      postgres.DataTypeOf go64 (.of hstoreType false) (.make (AList.insert "SIZE" "12" ∅))
        = .ret "hstore" :=
  ⟨(C3_fixed_names go64 (.of (.basic .bool) false) .nil).1 (by decide),
   (C3_fixed_names go64 (.of (.basic .float64) false) .nil).2.1 (Or.inr (by decide)),
   (C3_fixed_names go64 (.of timeType false) (.make (AList.insert "SIZE" "12" ∅))).2.2.1
      ⟨by decide, by decide⟩,
   (C3_fixed_names go64 (.of hstoreType false) (.make (AList.insert "SIZE" "12" ∅))).2.2.2
      ⟨by decide, by decide⟩⟩

/-! ## Reading decimal numbers -/

theorem foldl_digits_ge (cs : List Char) (n : Nat) :
    n ≤ cs.foldl (fun n c => n * 10 + (c.toNat - 48)) n := by
  induction cs generalizing n with
  | nil => simp
  | cons c cs ih =>
    simp only [List.foldl_cons]
    exact le_trans (by omega) (ih _)

/-- The digit loop of `ParseUint` on a list of digits: the number when it
fits, the maximum with a range error when it does not. -/
theorem parseUintLoop_digits (b : Nat) (hb : 2 ^ b - 1 ≤ 18446744073709551615)
    (cs : List Char) (n : Nat) (hcs : ∀ c ∈ cs, 48 ≤ c.toNat ∧ c.toNat ≤ 57) :
    (cs.foldl (fun n c => n * 10 + (c.toNat - 48)) n ≤ 2 ^ b - 1 →
        parseUintLoop b cs n = (cs.foldl (fun n c => n * 10 + (c.toNat - 48)) n, none)) ∧
      (cs ≠ [] → 2 ^ b - 1 < cs.foldl (fun n c => n * 10 + (c.toNat - 48)) n →
        parseUintLoop b cs n = (2 ^ b - 1, some .ErrRange)) := by
  induction cs generalizing n with
  | nil => simp [parseUintLoop]
  | cons c cs ih =>
    have hc := hcs c (List.mem_cons_self _ _)
    have hcs2 : ∀ x ∈ cs, 48 ≤ x.toNat ∧ x.toNat ≤ 57 :=
      fun x hx => hcs x (List.mem_cons_of_mem _ hx)
    have hge := foldl_digits_ge cs (n * 10 + (c.toNat - 48))
    have hnot : ¬ (c.toNat < 48 ∨ 57 < c.toNat) := by omega
    simp only [List.foldl_cons, parseUintLoop, hnot, if_false]
    norm_num only
    by_cases h1 : 1844674407370955162 ≤ n
    · simp only [h1, if_true]
      refine ⟨fun h => ?_, fun _ _ => trivial⟩
      omega
    · simp only [h1, if_false]
      by_cases h2 : 2 ^ b - 1 < n * 10 + (c.toNat - 48)
      · simp only [h2, if_true]
        refine ⟨fun h => ?_, fun _ _ => trivial⟩
        omega
      · simp only [h2, if_false]
        obtain ⟨ih1, ih2⟩ := ih (n * 10 + (c.toNat - 48)) hcs2
        refine ⟨ih1, fun _ h => ?_⟩
        by_cases hnil : cs = []
        · subst hnil; simp only [List.foldl_nil] at h; omega
        · exact ih2 hnil h

/-- The digit loop of `ParseUint` on any text ends in one of three ways. -/
theorem parseUintLoop_cases (b : Nat) (cs : List Char) (n : Nat) :
    parseUintLoop b cs n = (0, some .ErrSyntax) ∨
      parseUintLoop b cs n = (2 ^ b - 1, some .ErrRange) ∨
      ((∀ c ∈ cs, 48 ≤ c.toNat ∧ c.toNat ≤ 57) ∧ (parseUintLoop b cs n).2 = none) := by
  induction cs generalizing n with
  | nil => simp [parseUintLoop]
  | cons c cs ih =>
    simp only [parseUintLoop]
    by_cases h0 : c.toNat < 48 ∨ 57 < c.toNat
    · simp [h0]
    · simp only [h0, if_false]
      split
      · simp
      · split
        · simp
        · rcases ih (n * 10 + (c.toNat - 48)) with h | h | ⟨h, h'⟩
          · exact Or.inl h
          · exact Or.inr (Or.inl h)
          · refine Or.inr (Or.inr ⟨?_, h'⟩)
            intro x hx
            rcases List.mem_cons.1 hx with rfl | hx
            · omega
            · exact h x hx

/-- The three ways `ParseUint` ends: on a list of digits it gives the number
they denote, or the maximum with a range error when the number is too large;
on any other text it reports a syntax error with result 0, unless it met the
range error first. -/
theorem ParseUint_spec (b : Nat) (hb : 2 ^ b - 1 ≤ 18446744073709551615) (ds : List Char) :
    (isDecimalDigits ds = true ∧ decimalDigitsValue ds ≤ 2 ^ b - 1 ∧
        ParseUint ds b = (decimalDigitsValue ds, none)) ∨
      (isDecimalDigits ds = true ∧ 2 ^ b - 1 < decimalDigitsValue ds ∧
        ParseUint ds b = (2 ^ b - 1, some .ErrRange)) ∨
      (isDecimalDigits ds = false ∧
        (ParseUint ds b = (0, some .ErrSyntax) ∨ ParseUint ds b = (2 ^ b - 1, some .ErrRange))) := by
  by_cases hnil : ds = []
  · subst hnil
    exact Or.inr (Or.inr ⟨by decide, Or.inl (by simp [ParseUint])⟩)
  · have hP : ParseUint ds b = parseUintLoop b ds 0 := by simp [ParseUint, hnil]
    by_cases hd : isDecimalDigits ds = true
    · obtain ⟨h1, h2⟩ := parseUintLoop_digits b hb ds 0 ((isDecimalDigits_iff ds).1 hd).2
      by_cases hv : decimalDigitsValue ds ≤ 2 ^ b - 1
      · exact Or.inl ⟨hd, hv, by rw [hP]; exact h1 hv⟩
      · exact Or.inr (Or.inl ⟨hd, by omega, by rw [hP]; exact h2 hnil (by
          simp only [decimalDigitsValue] at hv; omega)⟩)
    · have hd' : isDecimalDigits ds = false := by simpa using hd
      refine Or.inr (Or.inr ⟨hd', ?_⟩)
      rcases parseUintLoop_cases b ds 0 with h | h | ⟨h, _⟩
      · exact Or.inl (by rw [hP]; exact h)
      · exact Or.inr (by rw [hP]; exact h)
      · exact absurd ((isDecimalDigits_iff ds).2 ⟨hnil, h⟩) hd

theorem ParseInt_unfold (b : Nat) (s body : List Char) (neg : Bool) (hs : s ≠ [])
    (hneg : s.head? = some '-' ↔ neg = true)
    (hbody : (if s.head? = some '+' ∨ s.head? = some '-' then s.tail else s) = body) :
    ParseInt s b =
      if (ParseUint body b).2 = some .ErrSyntax then (0, some .ErrSyntax)
      else if neg = false ∧ 2 ^ (b - 1) ≤ (ParseUint body b).1 then
        (((2 ^ (b - 1) : Nat) : Int) - 1, some .ErrRange)
      else if neg = true ∧ 2 ^ (b - 1) < (ParseUint body b).1 then
        (-((2 ^ (b - 1) : Nat) : Int), some .ErrRange)
      else (if neg = true then -((ParseUint body b).1 : Int) else ((ParseUint body b).1 : Int), none) := by
  subst hbody
  cases neg with
  | false =>
    have hn : ¬ (s.head? = some '-') := by simpa using hneg
    simp only [ParseInt, hs, if_false, hn]
    simp
  | true =>
    have hn : s.head? = some '-' := by simpa using hneg
    simp only [ParseInt, hs, if_false, hn]
    simp

/-- What `ParseInt` returns, given the sign it found and the text after the
sign: the signed number when it fits in `b` bits, the nearest bound with a
range error when it does not, and 0 or a bound when the text is not a list of
digits. -/
theorem ParseInt_signed (b : Nat) (hb : b = 32 ∨ b = 64) (s body : List Char) (neg : Bool)
    (hs : s ≠ []) (hneg : s.head? = some '-' ↔ neg = true)
    (hbody : (if s.head? = some '+' ∨ s.head? = some '-' then s.tail else s) = body) :
    (isDecimalDigits body = true →
      ∀ n : Int, n = (if neg = true then -(decimalDigitsValue body : Int)
          else (decimalDigitsValue body : Int)) →
        (-(2 ^ (b - 1) : Int) ≤ n ∧ n ≤ 2 ^ (b - 1) - 1 → ParseInt s b = (n, none)) ∧
        (2 ^ (b - 1) - 1 < n → ParseInt s b = (2 ^ (b - 1) - 1, some .ErrRange)) ∧
        (n < -(2 ^ (b - 1) : Int) → ParseInt s b = (-(2 ^ (b - 1)), some .ErrRange))) ∧
    (isDecimalDigits body = false →
      (ParseInt s b).1 = 0 ∨ (ParseInt s b).1 = 2 ^ (b - 1) - 1 ∨
        (ParseInt s b).1 = -(2 ^ (b - 1))) := by
  have hmax : 2 ^ b - 1 ≤ 18446744073709551615 := by
    rcases hb with rfl | rfl <;> norm_num
  rw [ParseInt_unfold b s body neg hs hneg hbody]
  rcases ParseUint_spec b hmax body with ⟨hd, hv, hP⟩ | ⟨hd, hv, hP⟩ | ⟨hd, hP | hP⟩
  · refine ⟨fun _ n hn => ?_, fun h => by rw [hd] at h; exact absurd h (by decide)⟩
    rw [hP]
    rcases hb with rfl | rfl <;> cases neg <;> subst hn <;>
      refine ⟨fun h => ?_, fun h => ?_, fun h => ?_⟩ <;>
      simp only [reduceCtorEq, Bool.false_eq_true, false_and, true_and, if_false, if_true,
        ↓reduceIte] <;>
      norm_num at h hv ⊢ <;>
      omega
  · refine ⟨fun _ n hn => ?_, fun h => by rw [hd] at h; exact absurd h (by decide)⟩
    rw [hP]
    rcases hb with rfl | rfl <;> cases neg <;> subst hn <;>
      refine ⟨fun h => ?_, fun h => ?_, fun h => ?_⟩ <;>
      simp only [reduceCtorEq, Bool.false_eq_true, false_and, true_and, if_false, if_true,
        ↓reduceIte] <;>
      norm_num at h hv ⊢ <;>
      first | omega | decide
  · refine ⟨fun h => by rw [hd] at h; exact absurd h (by decide), fun _ => ?_⟩
    rw [hP]
    simp
  · refine ⟨fun h => by rw [hd] at h; exact absurd h (by decide), fun _ => ?_⟩
    rw [hP]
    rcases hb with rfl | rfl <;> cases neg <;>
      simp only [reduceCtorEq, Bool.false_eq_true, false_and, true_and, if_false, if_true,
        ↓reduceIte] <;>
      norm_num <;>
      rw [if_neg (by decide)] <;>
      simp

/-- `Atoi` against the decimal reading of the text: a text that denotes an
integer gives that integer when it fits in `b` bits and the nearest bound
with a range error when it does not; a text that denotes no integer gives 0
or one of the bounds. -/
theorem Atoi_spec (b : Nat) (hb : b = 32 ∨ b = 64) (s : String) :
    (∀ n : Int, decimalInteger s = some n →
        (-(2 ^ (b - 1) : Int) ≤ n ∧ n ≤ 2 ^ (b - 1) - 1 → Atoi b s = (n, none)) ∧
        (2 ^ (b - 1) - 1 < n → Atoi b s = (2 ^ (b - 1) - 1, some .ErrRange)) ∧
        (n < -(2 ^ (b - 1) : Int) → Atoi b s = (-(2 ^ (b - 1)), some .ErrRange))) ∧
    (decimalInteger s = none →
      (Atoi b s).1 = 0 ∨ (Atoi b s).1 = 2 ^ (b - 1) - 1 ∨ (Atoi b s).1 = -(2 ^ (b - 1))) := by
  obtain ⟨data⟩ := s
  cases data with
  | nil => simp [decimalInteger, Atoi, ParseInt]
  | cons c ds =>
    by_cases hplus : c = '+'
    · subst hplus
      obtain ⟨h1, h2⟩ := ParseInt_signed b hb ('+' :: ds) ds false (by simp)
        (by simp) (by simp)
      by_cases hd : isDecimalDigits ds = true
      · refine ⟨fun n hn => ?_, fun hn => ?_⟩
        · simp only [decimalInteger, if_true, hd, Option.some.injEq] at hn
          exact h1 hd n (by simp [hn])
        · simp [decimalInteger, hd] at hn
      · have hd' : isDecimalDigits ds = false := by simpa using hd
        refine ⟨fun n hn => ?_, fun _ => h2 hd'⟩
        simp [decimalInteger, hd'] at hn
    · by_cases hminus : c = '-'
      · subst hminus
        obtain ⟨h1, h2⟩ := ParseInt_signed b hb ('-' :: ds) ds true (by simp)
          (by simp) (by simp)
        by_cases hd : isDecimalDigits ds = true
        · refine ⟨fun n hn => ?_, fun hn => ?_⟩
          · simp only [decimalInteger, hplus, if_false, if_true, hd, Option.some.injEq] at hn
            exact h1 hd n (by simp [hn])
          · simp [decimalInteger, hd] at hn
        · have hd' : isDecimalDigits ds = false := by simpa using hd
          refine ⟨fun n hn => ?_, fun _ => h2 hd'⟩
          simp [decimalInteger, hd'] at hn
      · obtain ⟨h1, h2⟩ := ParseInt_signed b hb (c :: ds) (c :: ds) false (by simp)
          (by simp [hminus]) (by simp [hplus, hminus])
        by_cases hd : isDecimalDigits (c :: ds) = true
        · refine ⟨fun n hn => ?_, fun hn => ?_⟩
          · simp only [decimalInteger, hplus, hminus, if_false, if_true, hd,
              Option.some.injEq] at hn
            exact h1 hd n (by simp [hn])
          · simp [decimalInteger, hd, hplus, hminus] at hn
        · have hd' : isDecimalDigits (c :: ds) = false := by simpa using hd
          refine ⟨fun n hn => ?_, fun _ => h2 hd'⟩
          simp [decimalInteger, hd', hplus, hminus] at hn

/-- The size that `DataTypeOf` reads from the SIZE tag lies strictly between
0 and 65532 exactly when the tag denotes a decimal integer in that range, and
it is then that integer. -/
theorem Atoi_size (b : Nat) (hb : b = 32 ∨ b = 64) (num : String) :
    (∀ n : Int, decimalInteger num = some n → 0 < n → n < 65532 → (Atoi b num).1 = n) ∧
    (0 < (Atoi b num).1 → (Atoi b num).1 < 65532 →
      decimalInteger num = some (Atoi b num).1) := by
  obtain ⟨h1, h2⟩ := Atoi_spec b hb num
  refine ⟨fun n hn h0 h65 => ?_, fun h0 h65 => ?_⟩
  · have h := (h1 n hn).1 (by rcases hb with rfl | rfl <;> norm_num <;> omega)
    rw [h]
  · cases hd : decimalInteger num with
    | none =>
      have h := h2 hd
      rcases hb with rfl | rfl <;> norm_num at h <;> omega
    | some n =>
      obtain ⟨ha, hb1, hc⟩ := h1 n hd
      by_cases hlo : n < -(2 ^ (b - 1) : Int)
      · have h := hc hlo
        rw [h] at h0
        rcases hb with rfl | rfl <;> norm_num at h0
      · by_cases hhi : (2 ^ (b - 1) : Int) - 1 < n
        · have h := hb1 hhi
          rw [h] at h65
          rcases hb with rfl | rfl <;> norm_num at h65
        · have h := ha ⟨by omega, by omega⟩
          rw [h]

/-- C2: for a value of kind String, `DataTypeOf` returns "varchar(n)", with
`n` printed in decimal, when the SIZE tag is present and denotes a decimal
integer `n` with 0 < n < 65532, and "text" in every other case: no SIZE tag,
a tag that denotes no integer, or an integer that is zero, negative, 65532 or
more, or beyond the range of `int`. -/
theorem C2_string_kind (go : GoRuntime) (hgo : go.IntSize = 32 ∨ go.IntSize = 64)
    (v : Value) (tagSettings : GoMap String) (hk : v.Kind = Kind.String) :
    (∀ (num : String) (n : Int), tagSettings.get? "SIZE" = some num →
        decimalInteger num = some n → 0 < n → n < 65532 →
        postgres.DataTypeOf go v tagSettings = .ret ("varchar(" ++ toString n ++ ")")) ∧
    ((¬ ∃ (num : String) (n : Int), tagSettings.get? "SIZE" = some num ∧
        decimalInteger num = some n ∧ 0 < n ∧ n < 65532) →
      postgres.DataTypeOf go v tagSettings = .ret "text") := by
  refine ⟨fun num n hnum hn h0 h65 => ?_, fun hno => ?_⟩
  · have hsize := (Atoi_size go.IntSize hgo num).1 n hn h0 h65
    simp only [postgres.DataTypeOf, hk, hnum, hsize, h0, h65, and_self, if_true]
    congr 1
    apply String.ext
    simp only [Sprintf, String.data_append, ← fmtInt_eq_toString]
    simp [sprintfAux, fmtVerb]
  · cases hnum : tagSettings.get? "SIZE" with
    | none => simp [postgres.DataTypeOf, hk, hnum]
    | some num =>
      have hsize := (Atoi_size go.IntSize hgo num).2
      have hnot : ¬ (0 < (Atoi go.IntSize num).1 ∧ (Atoi go.IntSize num).1 < 65532) := by
        rintro ⟨h0, h65⟩
        exact hno ⟨num, (Atoi go.IntSize num).1, hnum, hsize h0 h65, h0, h65⟩
      simp only [postgres.DataTypeOf, hk, hnum, hnot, if_false]

/-- C2 on a 64-bit installation: a `string` field with SIZE 255 is
"varchar(255)", and with SIZE 65532 it is "text". -/
theorem C2_string_kind_witness :
    postgres.DataTypeOf go64 (.of (.basic .string) false) (.make (AList.insert "SIZE" "255" ∅))
        = .ret "varchar(255)" ∧
      postgres.DataTypeOf go64 (.of (.basic .string) false) (.make (AList.insert "SIZE" "65532" ∅))
        = .ret "text" :=
  ⟨(C2_string_kind go64 (Or.inr rfl) (.of (.basic .string) false)
      (.make (AList.insert "SIZE" "255" ∅)) (by decide)).1 "255" 255
      (by decide) (by decide) (by decide) (by decide),
   (C2_string_kind go64 (Or.inr rfl) (.of (.basic .string) false)
      (.make (AList.insert "SIZE" "65532" ∅)) (by decide)).2 (by
        rintro ⟨num, n, hnum, hn, h0, h65⟩
        have hnum2 : num = "65532" := by
          have : (GoMap.make (AList.insert "SIZE" "65532" ∅)).get? "SIZE" = some "65532" := by
            decide
          rw [this] at hnum
          exact (Option.some.inj hnum).symm
        subst hnum2
        have hn2 : decimalInteger "65532" = some 65532 := by decide
        rw [hn2] at hn
        have := Option.some.inj hn
        omega)⟩

/-! ## Unmappable values -/

theorem invalid_message (name kind : String) :
    Sprintf "invalid sql type %s (%s) for postgres" [.str name, .str kind]
      = "invalid sql type " ++ name ++ " (" ++ kind ++ ") for postgres" := by
  apply String.ext
  simp only [Sprintf, String.data_append]
  simp [sprintfAux, fmtVerb]

/-- No type has the kind `Invalid`; only the zero `Value` reports it. -/
theorem GoType.Kind_ne_Invalid (t : GoType) : t.Kind ≠ Kind.Invalid := by
  induction t with
  | basic b => cases b <;> simp [GoType.Kind, Basic.kind]
  | named _ _ _ ih => simpa [GoType.Kind] using ih
  | _ => simp [GoType.Kind]

/-- `isByteArrayOrSlice` never panics, and answers true exactly for an array
or slice whose element type is `uint8`. -/
theorem isByteArrayOrSlice_spec (v : Value) :
    (IsByteArrayOrSlice v → isByteArrayOrSlice v = .ok true) ∧
      (¬ IsByteArrayOrSlice v → isByteArrayOrSlice v = .ok false) := by
  cases v with
  | zero => simp [IsByteArrayOrSlice, isByteArrayOrSlice, Value.Kind]
  | of typ ro =>
    simp only [IsByteArrayOrSlice, isByteArrayOrSlice, Value.Kind, Value.Type]
    by_cases hk : typ.Kind = Kind.Array ∨ typ.Kind = Kind.Slice <;>
      by_cases he : typ.Elem = some uint8Type <;> simp [hk, he]

theorem IsUUIDShaped_of (go : GoRuntime) (typ : GoType) (ro : Bool) :
    IsUUIDShaped go (.of typ ro) ↔
      typ.Kind = Kind.Array ∧ typ.Len = 16 ∧
        (go.ToLower typ.Name = "uuid" ∨ go.ToLower typ.Name = "guid") := by
  simp only [IsUUIDShaped, Value.Kind, Value.Type]
  constructor
  · rintro ⟨hk, t, ht, h⟩
    cases ht
    exact ⟨hk, h⟩
  · rintro ⟨hk, h⟩
    exact ⟨hk, typ, rfl, h⟩

theorem IsByteArrayOrSlice_of (typ : GoType) (ro : Bool) :
    IsByteArrayOrSlice (.of typ ro) ↔
      (typ.Kind = Kind.Array ∨ typ.Kind = Kind.Slice) ∧ typ.Elem = some uint8Type := by
  simp only [IsByteArrayOrSlice, Value.Kind, Value.Type]
  constructor
  · rintro ⟨hk, t, ht, h⟩
    cases ht
    exact ⟨hk, h⟩
  · rintro ⟨hk, h⟩
    exact ⟨hk, typ, rfl, h⟩

/-- `isUUID` never panics, and answers true exactly for a UUID-shaped
array. -/
theorem isUUID_spec (go : GoRuntime) (v : Value) :
    (IsUUIDShaped go v → isUUID go v = .ok true) ∧
      (¬ IsUUIDShaped go v → isUUID go v = .ok false) := by
  cases v with
  | zero => simp [IsUUIDShaped, isUUID, Value.Kind]
  | of typ ro =>
    rw [IsUUIDShaped_of]
    simp only [isUUID, Value.Kind, Value.Type]
    by_cases hk : typ.Kind = Kind.Array
    · by_cases hl : typ.Len = 16
      · simp only [hk, hl, ne_eq, not_true_eq_false, if_false, true_and]
        constructor
        · rintro (h | h) <;> simp [h]
        · intro h
          push_neg at h
          have h1 : ¬ ("uuid" = go.ToLower typ.Name) := fun e => h.1 e.symm
          have h2 : ¬ ("guid" = go.ToLower typ.Name) := fun e => h.2 e.symm
          simp [h1, h2]
      · simp [hk, hl]
    · simp [hk]

theorem DataTypeOf_zero (go : GoRuntime) (tagSettings : GoMap String) :
    postgres.DataTypeOf go .zero tagSettings
      = .panic "reflect: call of reflect.Value.Type on zero Value" := by
  simp [postgres.DataTypeOf, Value.Kind, isByteArrayOrSlice, isUUID, invalidSqlType, Value.Type]

/-- The three ways `DataTypeOf` ends on a valid value: the panic of
`Interface()` on a read-only struct, the "invalid sql type" panic on an
unmappable value, and a returned name on every other value. -/
theorem DataTypeOf_of (go : GoRuntime) (typ : GoType) (ro : Bool) (tagSettings : GoMap String) :
    (typ.Kind = Kind.Struct ∧ ro = true ∧
        postgres.DataTypeOf go (.of typ ro) tagSettings = .panic
          "reflect.Value.Interface: cannot return value obtained from unexported field or method") ∨
      (¬ (typ.Kind = Kind.Struct ∧ ro = true) ∧ Unmappable go (.of typ ro) ∧
        postgres.DataTypeOf go (.of typ ro) tagSettings =
          .panic ("invalid sql type " ++ typ.Name ++ " (" ++ kindString typ.Kind
            ++ ") for postgres")) ∨
      (¬ (typ.Kind = Kind.Struct ∧ ro = true) ∧ ¬ Unmappable go (.of typ ro) ∧
        ∃ name, postgres.DataTypeOf go (.of typ ro) tagSettings = .ret name) := by
  have hb := isByteArrayOrSlice_spec (.of typ ro)
  have hu := isUUID_spec go (.of typ ro)
  cases hk : typ.Kind <;>
    simp only [postgres.DataTypeOf, Value.Kind, hk, Unmappable, namedKinds, invalidSqlType,
      Value.Type, invalid_message] <;>
    try (first | (simp; done) | (split_ifs <;> simp; done))
  case Struct =>
    cases ro <;> by_cases ht : typ = timeType <;> simp [Value.Interface, ht]
  case Map =>
    by_cases ht : typ = hstoreType <;> simp [ht]
  all_goals
    by_cases hB : IsByteArrayOrSlice (.of typ ro) <;>
      by_cases hU : IsUUIDShaped go (.of typ ro) <;>
      simp [hb.1, hb.2, hu.1, hu.2, hB, hU]

theorem Unmappable_zero (go : GoRuntime) : Unmappable go .zero := by
  refine Or.inr (Or.inr ⟨by decide, ?_, ?_⟩)
  · rintro ⟨h, _⟩
    revert h
    decide
  · rintro ⟨h, _⟩
    revert h
    decide

/-- C4, as the code has it: `DataTypeOf` aborts exactly when the value is
unmappable (a struct other than `time.Time`, a map whose type is not
`Hstore`, or a value of a remaining kind, the zero `Value` among them, that
is neither an array or slice of `uint8` nor a UUID-shaped array) or is a
struct on which `Interface()` cannot be called. The abort is the panic with
the message "invalid sql type NAME (KIND) for postgres" when the value is
unmappable, has a type and, if it is a struct, allows `Interface()`; it is
the panic of `reflect` itself for the zero `Value` (raised by `Type()`) and
for a struct that does not allow `Interface()` (raised by `Interface()`).
Every other value returns a type name. -/
theorem C4_panics_characterised (go : GoRuntime) (v : Value) (tagSettings : GoMap String) :
    ((∃ msg, postgres.DataTypeOf go v tagSettings = .panic msg) ↔
      Unmappable go v ∨ (v.Kind = Kind.Struct ∧ v.CanInterface = false)) ∧
    (∀ typ, v.Type = .ok typ → Unmappable go v →
      (v.Kind = Kind.Struct → v.CanInterface = true) →
      postgres.DataTypeOf go v tagSettings =
        .panic ("invalid sql type " ++ typ.Name ++ " (" ++ kindString v.Kind
          ++ ") for postgres")) ∧
    (∀ msg, v.Type = .panic msg → postgres.DataTypeOf go v tagSettings = .panic msg) ∧
    (v.Kind = Kind.Struct → ∀ msg, v.Interface = .panic msg →
      postgres.DataTypeOf go v tagSettings = .panic msg) ∧
    (¬ Unmappable go v → (v.Kind = Kind.Struct → v.CanInterface = true) →
      ∃ name, postgres.DataTypeOf go v tagSettings = .ret name) := by
  cases v with
  | zero =>
    have hz := DataTypeOf_zero go tagSettings
    have hu := Unmappable_zero go
    refine ⟨⟨fun _ => Or.inl hu, fun _ => ⟨_, hz⟩⟩, ?_, ?_, ?_, fun h => absurd hu h⟩
    · intro typ ht
      cases ht
    · intro msg hmsg
      simp only [Value.Type, Result.panic.injEq] at hmsg
      rw [hz, hmsg]
    · intro hk
      exact absurd hk (by simp [Value.Kind])
  | of typ ro =>
    rcases DataTypeOf_of go typ ro tagSettings with
      ⟨hk, hro, hp⟩ | ⟨hno, hu, hp⟩ | ⟨hno, hu, name, hr⟩
    · subst hro
      refine ⟨⟨fun _ => Or.inr ⟨hk, rfl⟩, fun _ => ⟨_, hp⟩⟩, ?_, ?_, ?_, ?_⟩
      · intro _ _ _ hcan
        exact absurd (hcan hk) (by simp [Value.CanInterface])
      · intro msg hmsg
        cases hmsg
      · intro _ msg hmsg
        simp only [Value.Interface, Result.panic.injEq] at hmsg
        rw [hp, hmsg]
      · intro _ hcan
        exact absurd (hcan hk) (by simp [Value.CanInterface])
    · have hro : typ.Kind = Kind.Struct → ro = false := by
        intro hk
        cases ro with
        | false => rfl
        | true => exact absurd ⟨hk, rfl⟩ hno
      refine ⟨⟨fun _ => Or.inl hu, fun _ => ⟨_, hp⟩⟩, ?_, ?_, ?_, fun h => absurd hu h⟩
      · intro t ht _ _
        simp only [Value.Type, Result.ok.injEq] at ht
        subst ht
        exact hp
      · intro msg hmsg
        cases hmsg
      · intro hk msg hmsg
        rw [hro hk] at hmsg
        cases hmsg
    · have hro : typ.Kind = Kind.Struct → ro = false := by
        intro hk
        cases ro with
        | false => rfl
        | true => exact absurd ⟨hk, rfl⟩ hno
      refine ⟨⟨?_, ?_⟩, fun _ _ h => absurd h hu, ?_, ?_, fun _ _ => ⟨name, hr⟩⟩
      · rintro ⟨msg, hmsg⟩
        rw [hr] at hmsg
        cases hmsg
      · rintro (h | ⟨hk, hcan⟩)
        · exact absurd h hu
        · rw [hro hk] at hcan
          exact absurd hcan (by simp [Value.CanInterface])
      · intro msg hmsg
        cases hmsg
      · intro hk msg hmsg
        rw [hro hk] at hmsg
        cases hmsg

/-- C4 fails as stated at two values. A `time.Time` read from an unexported
field is not unmappable, and the call aborts in `Interface()` instead of
returning a name. The zero `Value` is unmappable, and the call aborts in
`Type()` with the message of `reflect`, not the "invalid sql type" one. -/
theorem C4_counterexample :
    (¬ Unmappable go64 (.of timeType true) ∧
      postgres.DataTypeOf go64 (.of timeType true) .nil = .panic
        "reflect.Value.Interface: cannot return value obtained from unexported field or method") ∧
    (Unmappable go64 .zero ∧
      postgres.DataTypeOf go64 .zero .nil
        = .panic "reflect: call of reflect.Value.Type on zero Value") := by
  refine ⟨⟨?_, by decide⟩, Unmappable_zero go64, by decide⟩
  rintro (⟨_, h⟩ | ⟨h, _⟩ | ⟨h, _⟩)
  · exact h rfl
  · revert h
    decide
  · revert h
    decide

/-- C4 at concrete values: the struct type `User` panics with its name and
kind in the message, `[]byte` returns a name, a `User` read from an
unexported field panics inside `Interface()`, and the zero `Value` panics
inside `Type()`. -/
theorem C4_panics_characterised_witness :
    postgres.DataTypeOf go64 (.of (.named "models" "User" (.struct "Name string")) false) .nil
        = .panic "invalid sql type User (struct) for postgres" ∧
      (∃ name, postgres.DataTypeOf go64 (.of (.slice (.basic .uint8)) false) .nil
        = .ret name) ∧
      postgres.DataTypeOf go64 (.of (.named "models" "User" (.struct "Name string")) true) .nil
        = .panic
          "reflect.Value.Interface: cannot return value obtained from unexported field or method" ∧
      postgres.DataTypeOf go64 .zero .nil
        = .panic "reflect: call of reflect.Value.Type on zero Value" :=
  ⟨(C4_panics_characterised go64
      (.of (.named "models" "User" (.struct "Name string")) false) .nil).2.1
      (.named "models" "User" (.struct "Name string")) rfl
      (Or.inl ⟨by decide, by decide⟩) (fun _ => rfl),
   (C4_panics_characterised go64 (.of (.slice (.basic .uint8)) false) .nil).2.2.2.2
      (by
        rintro (⟨h, _⟩ | ⟨h, _⟩ | ⟨_, h, _⟩)
        · revert h; decide
        · revert h; decide
        · exact h ⟨Or.inr (by decide), _, rfl, by decide⟩)
      (fun _ => rfl),
   (C4_panics_characterised go64
      (.of (.named "models" "User" (.struct "Name string")) true) .nil).2.2.2.1
      (by decide) _ rfl,
   (C4_panics_characterised go64 .zero .nil).2.2.1 _ rfl⟩

/-! ## Properties of the `Hstore` codec -/

theorem GoMap.mem_keys_iff {α : Type} (m : GoMap α) (k : String) :
    k ∈ m.keys ↔ (m.get? k).isSome = true := by
  cases m with
  | nil => simp [GoMap.keys, GoMap.get?]
  | make a =>
    simp only [GoMap.keys, GoMap.get?]
    rw [AList.lookup_isSome, AList.mem_keys]

theorem GoMap.len_eq_zero_iff {α : Type} (m : GoMap α) :
    m.len = 0 ↔ ∀ k, m.get? k = none := by
  cases m with
  | nil => simp [GoMap.len, GoMap.get?]
  | make a =>
    simp only [GoMap.len, GoMap.get?, List.length_eq_zero]
    constructor
    · intro h k
      rw [AList.lookup_eq_none, AList.mem_keys, AList.keys, h]
      simp
    · intro h
      cases hent : a.entries with
      | nil => rfl
      | cons e es =>
        have hk : e.1 ∈ a := by
          rw [AList.mem_keys, AList.keys, hent]
          simp
        exact absurd (AList.lookup_eq_none.1 (h e.1)) (not_not.2 hk)

/-- Storing `f` of every entry of a list without repeated keys, in order,
into a map: a key of the list ends up with `f` of its value, and every other
key keeps what it had. -/
theorem foldl_insert_lookup {α β : Type} (f : α → β) (l : List (Σ _ : String, α))
    (hl : l.NodupKeys) (acc : AList (fun _ : String => β)) (k : String) :
    (l.foldl (fun acc kv => acc.insert kv.1 (f kv.2)) acc).lookup k =
      match l.dlookup k with
      | some v => some (f v)
      | none => acc.lookup k := by
  induction l generalizing acc with
  | nil => simp
  | cons e es ih =>
    obtain ⟨a, b⟩ := e
    rw [List.nodupKeys_cons] at hl
    simp only [List.foldl_cons]
    rw [ih hl.2]
    by_cases hk : k = a
    · subst hk
      have hnone : es.dlookup k = none := List.dlookup_eq_none.2 hl.1
      simp [hnone, List.dlookup_cons_eq, AList.lookup_insert]
    · rw [List.dlookup_cons_ne es ⟨a, b⟩ hk]
      cases es.dlookup k with
      | some v => rfl
      | none => simp [AList.lookup_insert_ne hk]

/-- Storing `g k` under every key `k` of a list, in order, into a map. -/
theorem foldl_keys_lookup {β : Type} (g : String → β) (ks : List String)
    (acc : AList (fun _ : String => β)) (k : String) :
    (ks.foldl (fun acc k => acc.insert k (g k)) acc).lookup k =
      if k ∈ ks then some (g k) else acc.lookup k := by
  induction ks generalizing acc with
  | nil => simp
  | cons a as ih =>
    simp only [List.foldl_cons]
    rw [ih]
    by_cases hmem : k ∈ as
    · simp [hmem]
    · by_cases hk : k = a
      · subst hk
        simp [hmem, AList.lookup_insert]
      · simp [hmem, hk, AList.lookup_insert_ne hk]

/-- The map handed to the driver holds, under each key of `h`, the
`sql.NullString` of the value `h` has there, and nothing else. -/
theorem nullStrings_get? (h : Hstore) (k : String) :
    (Hstore.nullStrings h).get? k = (h.get? k).map nullStringOf := by
  cases h with
  | nil => simp [Hstore.nullStrings, GoMap.get?]
  | make m =>
    simp only [Hstore.nullStrings, GoMap.get?]
    rw [foldl_insert_lookup nullStringOf m.entries m.nodupKeys ∅ k]
    have hl : m.lookup k = m.entries.dlookup k := rfl
    rw [hl]
    cases m.entries.dlookup k with
    | some v => rfl
    | none => simp

/-- The pointer `Hstore.Scan` stores for a decoded `sql.NullString`. -/
theorem fromNullStrings_get? (decoded : GoMap NullString) (k : String) :
    (Hstore.fromNullStrings decoded).get? k =
      (decoded.get? k).map fun e => if e.Valid then some e.String else none := by
  have hfun : (fun (acc : AList (fun _ : String => Option String)) (k : String) =>
      let entry := (decoded.get? k).getD { String := "", Valid := false }
      if entry.Valid then acc.insert k (some entry.String) else acc.insert k none) =
      fun acc k => acc.insert k
        (if ((decoded.get? k).getD { String := "", Valid := false }).Valid
          then some ((decoded.get? k).getD { String := "", Valid := false }).String
          else none) := by
    funext acc k
    simp only
    split <;> rfl
  unfold Hstore.fromNullStrings
  rw [hfun]
  show AList.lookup k _ = _
  rw [foldl_keys_lookup]
  have hmem := GoMap.mem_keys_iff decoded k
  cases hget : decoded.get? k with
  | none =>
    rw [hget] at hmem
    simp at hmem
    simp [hmem]
  | some e =>
    rw [hget] at hmem
    simp at hmem
    simp [hmem]

/-! ## The codec of lib/pq reads back what it writes -/

theorem pqEscape_cons (c : Char) (cs : List Char) :
    pqEscape (c :: cs) =
      (if c = Char.ofNat 92 ∨ c = Char.ofNat 34 then [Char.ofNat 92, c] else [c])
        ++ pqEscape cs := by
  simp [pqEscape]

/-- Inside quotes, with the key being read, the scanner appends an escaped
text to the key unescaped. -/
theorem scan_escaped_key (M : AList (fun _ : String => NullString)) (key val : List Char)
    (dq : Bool) (cs : List Char) :
    (pqEscape cs).foldl PqScanner.step ⟨M, key, val, 0, true, dq, false⟩
      = ⟨M, key ++ cs, val, 0, true, dq, false⟩ := by
  induction cs generalizing key with
  | nil => simp [pqEscape]
  | cons c cs ih =>
    rw [pqEscape_cons, List.foldl_append]
    have h92 : Char.ofNat 92 ≠ Char.ofNat 34 := by decide
    by_cases hc : c = Char.ofNat 92 ∨ c = Char.ofNat 34
    · have hstep : ([Char.ofNat 92, c] : List Char).foldl PqScanner.step
          ⟨M, key, val, 0, true, dq, false⟩ = ⟨M, key ++ [c], val, 0, true, dq, false⟩ := by
        simp [PqScanner.step, PqScanner.put]
      rw [if_pos hc, hstep, ih]
      simp
    · have hstep : ([c] : List Char).foldl PqScanner.step
          ⟨M, key, val, 0, true, dq, false⟩ = ⟨M, key ++ [c], val, 0, true, dq, false⟩ := by
        push_neg at hc
        simp [PqScanner.step, PqScanner.put, hc.1, hc.2]
      rw [if_neg hc, hstep, ih]
      simp

/-- Inside quotes, with the value being read, the scanner appends an escaped
text to the value unescaped. -/
theorem scan_escaped_val (M : AList (fun _ : String => NullString)) (key val : List Char)
    (dq : Bool) (cs : List Char) :
    (pqEscape cs).foldl PqScanner.step ⟨M, key, val, 1, true, dq, false⟩
      = ⟨M, key, val ++ cs, 1, true, dq, false⟩ := by
  induction cs generalizing val with
  | nil => simp [pqEscape]
  | cons c cs ih =>
    rw [pqEscape_cons, List.foldl_append]
    by_cases hc : c = Char.ofNat 92 ∨ c = Char.ofNat 34
    · have hstep : ([Char.ofNat 92, c] : List Char).foldl PqScanner.step
          ⟨M, key, val, 1, true, dq, false⟩ = ⟨M, key, val ++ [c], 1, true, dq, false⟩ := by
        simp [PqScanner.step, PqScanner.put]
      rw [if_pos hc, hstep, ih]
      simp
    · have hstep : ([c] : List Char).foldl PqScanner.step
          ⟨M, key, val, 1, true, dq, false⟩ = ⟨M, key, val ++ [c], 1, true, dq, false⟩ := by
        push_neg at hc
        simp [PqScanner.step, PqScanner.put, hc.1, hc.2]
      rw [if_neg hc, hstep, ih]
      simp

theorem scan_quote_key (M : AList (fun _ : String => NullString)) (key val : List Char)
    (dq : Bool) (s : String) :
    (pqQuote s).foldl PqScanner.step ⟨M, key, val, 0, false, dq, false⟩
      = ⟨M, key ++ s.data, val, 0, false, true, false⟩ := by
  have h1 : PqScanner.step ⟨M, key, val, 0, false, dq, false⟩ (Char.ofNat 34)
      = ⟨M, key, val, 0, true, true, false⟩ := by
    simp [PqScanner.step]
  have h2 : PqScanner.step ⟨M, key ++ s.data, val, 0, true, true, false⟩ (Char.ofNat 34)
      = ⟨M, key ++ s.data, val, 0, false, true, false⟩ := by
    simp [PqScanner.step]
  simp only [pqQuote, List.foldl_cons, List.foldl_append, List.foldl_nil, h1,
    scan_escaped_key, h2]

theorem scan_quote_val (M : AList (fun _ : String => NullString)) (key val : List Char)
    (dq : Bool) (s : String) :
    (pqQuote s).foldl PqScanner.step ⟨M, key, val, 1, false, dq, false⟩
      = ⟨M, key, val ++ s.data, 1, false, true, false⟩ := by
  have h1 : PqScanner.step ⟨M, key, val, 1, false, dq, false⟩ (Char.ofNat 34)
      = ⟨M, key, val, 1, true, true, false⟩ := by
    simp [PqScanner.step]
  have h2 : PqScanner.step ⟨M, key, val ++ s.data, 1, true, true, false⟩ (Char.ofNat 34)
      = ⟨M, key, val ++ s.data, 1, false, true, false⟩ := by
    simp [PqScanner.step]
  simp only [pqQuote, List.foldl_cons, List.foldl_append, List.foldl_nil, h1,
    scan_escaped_val, h2]

theorem scan_arrow (M : AList (fun _ : String => NullString)) (key val : List Char)
    (dq : Bool) :
    ['=', '>'].foldl PqScanner.step ⟨M, key, val, 0, false, dq, false⟩
      = ⟨M, key, val, 1, false, false, false⟩ := by
  simp [PqScanner.step]

theorem scan_null (M : AList (fun _ : String => NullString)) (key val : List Char) :
    ['N', 'U', 'L', 'L'].foldl PqScanner.step ⟨M, key, val, 1, false, false, false⟩
      = ⟨M, key, val ++ ['N', 'U', 'L', 'L'], 1, false, false, false⟩ := by
  simp [PqScanner.step, PqScanner.put]

/-- The scanner after one pair, started between pairs. -/
theorem scan_pair (M : AList (fun _ : String => NullString)) (dq : Bool)
    (e : Σ _ : String, NullString) :
    (pqPair e).foldl PqScanner.step ⟨M, [], [], 0, false, dq, false⟩
      = ⟨M, e.1.data, if e.2.Valid then e.2.String.data else "NULL".data, 1, false,
          e.2.Valid, false⟩ := by
  simp only [pqPair, List.foldl_append, scan_quote_key, scan_arrow, List.nil_append]
  by_cases hv : e.2.Valid = true
  · simp only [pqQuoteValue, hv, if_true, scan_quote_val, List.nil_append]
  · have hv' : e.2.Valid = false := by simpa using hv
    simp only [pqQuoteValue, hv', Bool.false_eq_true, if_false]
    exact scan_null M e.1.data []

/-- Storing the pair just read gives the map with that pair added, provided a
null-string carries the empty string. -/
theorem store_pair (M : AList (fun _ : String => NullString)) (e : Σ _ : String, NullString)
    (hwf : e.2.Valid = false → e.2.String = "") :
    PqScanner.store ⟨M, e.1.data, if e.2.Valid then e.2.String.data else "NULL".data, 1,
        false, e.2.Valid, false⟩ = M.insert e.1 e.2 := by
  obtain ⟨k, str, valid⟩ := e
  cases valid with
  | true => simp [PqScanner.store]
  | false =>
    have hstr : str = "" := hwf rfl
    subst hstr
    have hlow : asciiToLower (String.mk "NULL".data) = "null" := by decide
    have hlen : byteLength ['N', 'U', 'L', 'L'] = 4 := by decide
    simp [PqScanner.store, hlow, hlen]

theorem intercalate_singleton (sep a : List Char) : List.intercalate sep [a] = a := by
  simp [List.intercalate]

theorem intercalate_cons_cons (sep a b : List Char) (l : List (List Char)) :
    List.intercalate sep (a :: b :: l) = a ++ (sep ++ List.intercalate sep (b :: l)) := by
  simp [List.intercalate]

theorem step_comma (M : AList (fun _ : String => NullString)) (key val : List Char)
    (pi : Nat) (dq : Bool) :
    PqScanner.step ⟨M, key, val, pi, false, dq, false⟩ ','
      = ⟨PqScanner.store ⟨M, key, val, pi, false, dq, false⟩, [], [], 0, false, dq, false⟩ := by
  simp [PqScanner.step]

/-- The scanner over the text of a non-empty list of pairs, started between
pairs: storing the last pair gives the map with all the pairs added in
order. -/
theorem scan_pairs (es : List (Σ _ : String, NullString)) (e0 : Σ _ : String, NullString)
    (hwf : ∀ e ∈ e0 :: es, e.2.Valid = false → e.2.String = "")
    (M : AList (fun _ : String => NullString)) (dq : Bool) :
    PqScanner.store ((List.intercalate [','] ((e0 :: es).map pqPair)).foldl PqScanner.step
        ⟨M, [], [], 0, false, dq, false⟩)
      = (e0 :: es).foldl (fun acc e => acc.insert e.1 e.2) M := by
  induction es generalizing e0 M dq with
  | nil =>
    simp only [List.map_cons, List.map_nil, intercalate_singleton, scan_pair, List.foldl_cons,
      List.foldl_nil]
    exact store_pair M e0 (hwf e0 (List.mem_cons_self _ _))
  | cons e1 es ih =>
    have hwf1 : ∀ e ∈ e1 :: es, e.2.Valid = false → e.2.String = "" :=
      fun e he => hwf e (List.mem_cons_of_mem _ he)
    simp only [List.map_cons, intercalate_cons_cons, List.foldl_append, scan_pair,
      List.foldl_cons, step_comma, store_pair M e0 (hwf e0 (List.mem_cons_self _ _))]
    have h := ih e1 hwf1 (M.insert e0.1 e0.2) e0.2.Valid
    simp only [List.map_cons, List.foldl_cons] at h
    exact h

theorem pqQuote_length (s : String) : 2 ≤ (pqQuote s).length := by
  simp [pqQuote]

theorem length_le_byteLength (text : List Char) : text.length ≤ byteLength text := by
  induction text with
  | nil => simp [byteLength]
  | cons c cs ih =>
    have hc := Char.utf8Size_pos c
    simp only [byteLength, List.map_cons, List.sum_cons, List.length_cons] at ih ⊢
    omega

theorem pqText_length (es : List (Σ _ : String, NullString)) (e0 : Σ _ : String, NullString) :
    2 ≤ byteLength (List.intercalate [','] ((e0 :: es).map pqPair)) := by
  have h := pqQuote_length e0.1
  refine le_trans ?_ (length_le_byteLength _)
  cases es with
  | nil =>
    simp only [List.map_cons, List.map_nil, intercalate_singleton, pqPair, List.length_append]
    omega
  | cons e1 es =>
    simp only [List.map_cons, intercalate_cons_cons, pqPair, List.length_append]
    omega

/-- A text of one character that takes two bytes has a last byte with a
positive index, so the scanner stores the pair it read: the key `é` with the
empty string. -/
theorem pqScan_two_byte_character :
    (pqScan (some [Char.ofNat 233])).1.get? (String.mk [Char.ofNat 233])
      = some { String := "", Valid := true } := by
  decide

/-- The codec of lib/pq reads back every map it writes, as long as the map
has an entry and its null-strings carry the empty string: encoding and
decoding report no error, and the decoded map has the same entry under every
key. -/
theorem pqHstore_reads_back_all (m : AList (fun _ : String => NullString))
    (hne : m.entries ≠ [])
    (hwf : ∀ e ∈ m.entries, e.2.Valid = false → e.2.String = "") :
    (pqHstore.Value (.make m)).2 = none ∧
      (pqHstore.Scan (pqHstore.Value (.make m)).1).2 = none ∧
      ∀ k, (pqHstore.Scan (pqHstore.Value (.make m)).1).1.get? k = (GoMap.make m).get? k := by
  obtain ⟨e0, es, hes⟩ := List.exists_cons_of_ne_nil hne
  have hlen := pqText_length es e0
  have hscan : pqScan (some (List.intercalate [','] ((e0 :: es).map pqPair)))
      = (.make ((e0 :: es).foldl (fun acc e => acc.insert e.1 e.2) ∅), none) := by
    simp only [pqScan, hlen, if_true]
    rw [scan_pairs es e0 (by rw [← hes]; exact hwf) ∅ false]
  refine ⟨rfl, ?_, fun k => ?_⟩
  · simp only [pqHstore, pqValue, hes, hscan]
  · simp only [pqHstore, pqValue, hes, hscan, GoMap.get?]
    have hf := foldl_insert_lookup id (e0 :: es) (by rw [← hes]; exact m.nodupKeys) ∅ k
    simp only [id] at hf
    rw [hf]
    have hl : m.lookup k = (e0 :: es).dlookup k := by rw [← hes]; rfl
    rw [hl]
    cases (e0 :: es).dlookup k with
    | some v => rfl
    | none => simp

/-- The codec of lib/pq meets what the round trip asks of the driver, for
every non-empty `Hstore`: it encodes the map `Value` hands it and decodes the
result without error, to a map with the same entry under every key. -/
theorem pqHstore_round_trip (h : Hstore) (hne : h.len ≠ 0) :
    (pqHstore.Value (Hstore.nullStrings h)).2 = none ∧
      (pqHstore.Scan (pqHstore.Value (Hstore.nullStrings h)).1).2 = none ∧
      ∀ k, (pqHstore.Scan (pqHstore.Value (Hstore.nullStrings h)).1).1.get? k
        = (Hstore.nullStrings h).get? k := by
  have hget := nullStrings_get? h
  have hlen : (Hstore.nullStrings h).len ≠ 0 := by
    intro h0
    apply hne
    rw [GoMap.len_eq_zero_iff] at h0 ⊢
    intro k
    have h1 := h0 k
    rw [hget k] at h1
    simpa using h1
  cases hm : Hstore.nullStrings h with
  | nil => rw [hm] at hlen; exact absurd rfl hlen
  | make m =>
    rw [hm] at hlen hget
    apply pqHstore_reads_back_all m
    · intro hnil
      exact hlen (by simp [GoMap.len, hnil])
    · intro e he hvalid
      have hlk : m.lookup e.1 = some e.2 := AList.mem_lookup_iff.2 he
      have hk : m.lookup e.1 = (h.get? e.1).map nullStringOf := hget e.1
      rw [hlk] at hk
      cases hv : h.get? e.1 with
      | none => rw [hv] at hk; simp at hk
      | some v =>
        rw [hv] at hk
        simp only [Option.map_some', Option.some.injEq] at hk
        rw [hk] at hvalid ⊢
        cases v with
        | none => rfl
        | some str => simp [nullStringOf] at hvalid

/-- C7: for a non-empty `Hstore`, the map that `Value` hands to the driver's
encoder has exactly the keys of `h`; a key that `h` maps to nil carries the
SQL null-string (`Valid` false), and a key that `h` maps to a pointer carries
the valid `sql.NullString` of the pointed-to string. -/
theorem C7_null_strings {V E : Type} (pq : PqHstore V E) (h : Hstore) (hne : h.len ≠ 0) :
    Hstore.Value pq h = pq.Value (Hstore.nullStrings h) ∧
    (∀ k, k ∈ (Hstore.nullStrings h).keys ↔ k ∈ h.keys) ∧
    (∀ k, h.get? k = some none →
      (Hstore.nullStrings h).get? k = some { String := "", Valid := false }) ∧
    (∀ k str, h.get? k = some (some str) →
      (Hstore.nullStrings h).get? k = some { String := str, Valid := true }) := by
  refine ⟨by simp [Hstore.Value, hne], fun k => ?_, fun k hk => ?_, fun k str hk => ?_⟩
  · rw [GoMap.mem_keys_iff, GoMap.mem_keys_iff, nullStrings_get?]
    cases h.get? k <;> simp
  · rw [nullStrings_get?, hk]; rfl
  · rw [nullStrings_get?, hk]; rfl

/-- C7 on the map with `a` pointing to nil and `b` pointing to the empty
string, encoded with the codec of lib/pq. -/
theorem C7_null_strings_witness :
    (Hstore.nullStrings (.make (AList.insert "a" none (AList.insert "b" (some "") ∅)))).get? "a"
        = some { String := "", Valid := false } ∧
      (Hstore.nullStrings (.make (AList.insert "a" none (AList.insert "b" (some "") ∅)))).get? "b"
        = some { String := "", Valid := true } :=
  ⟨(C7_null_strings pqHstore (.make (AList.insert "a" none (AList.insert "b" (some "") ∅)))
      (by decide)).2.2.1 "a" (by decide),
   (C7_null_strings pqHstore (.make (AList.insert "a" none (AList.insert "b" (some "") ∅)))
      (by decide)).2.2.2 "b" "" (by decide)⟩

/-- C5: an `Hstore` without entries, nil or empty, encodes to the null driver
value with no error; scanning that value into a fresh, nil `Hstore` returns
no error and leaves it nil, given that the driver decodes the null value to a
map without entries. -/
theorem C5_empty_is_null {V E : Type} (pq : PqHstore V E) (h : Hstore)
    (hempty : h = .nil ∨ h = .make ∅)
    (hnull : (pq.Scan none).2 = none ∧ (pq.Scan none).1.len = 0) :
    Hstore.Value pq h = (none, none) ∧
      Hstore.Scan pq .nil (Hstore.Value pq h).1 = (.nil, none) := by
  have hlen : h.len = 0 := by
    rcases hempty with rfl | rfl <;> rfl
  have hv : Hstore.Value pq h = (none, none) := by simp [Hstore.Value, hlen]
  refine ⟨hv, ?_⟩
  rw [hv]
  unfold Hstore.Scan
  simp only [hnull.1, hnull.2, if_true]

/-- C5 with the codec of lib/pq, for the empty and for the nil map. -/
theorem C5_empty_is_null_witness :
    Hstore.Scan pqHstore .nil (Hstore.Value pqHstore (.make ∅)).1 = (.nil, none) ∧
      Hstore.Value pqHstore .nil = (none, none) :=
  ⟨(C5_empty_is_null pqHstore (.make ∅) (Or.inr rfl) ⟨by decide, by decide⟩).2,
   (C5_empty_is_null pqHstore .nil (Or.inl rfl) ⟨by decide, by decide⟩).1⟩

/-- Scanning what `Value` produced for a non-empty `Hstore`, when the codec
decodes it without error to the map it was given: `Scan` takes the path that
rebuilds the receiver, and the rebuilt map has the entry of `h` under every
key. -/
theorem scan_value_get? {V E : Type} (pq : PqHstore V E) (h : Hstore) (hne : h.len ≠ 0)
    (hdec : (pq.Scan (pq.Value (Hstore.nullStrings h)).1).2 = none)
    (hcodec : ∀ k, (pq.Scan (pq.Value (Hstore.nullStrings h)).1).1.get? k
      = (Hstore.nullStrings h).get? k) :
    (Hstore.Scan pq .nil (Hstore.Value pq h).1).2 = none ∧
      ∀ k, (Hstore.Scan pq .nil (Hstore.Value pq h).1).1.get? k = h.get? k := by
  have hv : Hstore.Value pq h = pq.Value (Hstore.nullStrings h) := by
    simp [Hstore.Value, hne]
  have hlen : (pq.Scan (pq.Value (Hstore.nullStrings h)).1).1.len ≠ 0 := by
    intro h0
    apply hne
    rw [GoMap.len_eq_zero_iff] at h0 ⊢
    intro k
    have h1 := h0 k
    rw [hcodec k, nullStrings_get?] at h1
    simpa using h1
  have hscan : Hstore.Scan pq .nil (Hstore.Value pq h).1 =
      (Hstore.fromNullStrings (pq.Scan (pq.Value (Hstore.nullStrings h)).1).1, none) := by
    rw [hv]
    unfold Hstore.Scan
    simp only [hdec, hlen, if_false]
  refine ⟨by rw [hscan], fun k => ?_⟩
  rw [hscan]
  simp only
  rw [fromNullStrings_get?, hcodec k, nullStrings_get?]
  cases hk : h.get? k with
  | none => rfl
  | some v => cases v <;> rfl

/-- With the codec of lib/pq the round trip needs no assumption: for every
non-empty `Hstore`, `Value` and then `Scan` into a fresh `Hstore` report no
error and give a map with the entry of `h` under every key. -/
theorem pqHstore_scan_value (h : Hstore) (hne : h.len ≠ 0) :
    (Hstore.Value pqHstore h).2 = none ∧
      (Hstore.Scan pqHstore .nil (Hstore.Value pqHstore h).1).2 = none ∧
      ∀ k, (Hstore.Scan pqHstore .nil (Hstore.Value pqHstore h).1).1.get? k = h.get? k := by
  obtain ⟨henc, hdec, hcodec⟩ := pqHstore_round_trip h hne
  have hv : Hstore.Value pqHstore h = pqHstore.Value (Hstore.nullStrings h) := by
    simp [Hstore.Value, hne]
  exact ⟨by rw [hv]; exact henc, scan_value_get? pqHstore h hne hdec hcodec⟩

/-- C6: for a non-empty `Hstore` whose encoding the driver's codec reads back
as the map it was given, `Value` succeeds, `Scan` of the result into a fresh
`Hstore` succeeds, and the scanned map has exactly the keys of `h`, with nil
where `h` has nil and a pointer to the same string where `h` has a string. -/
theorem C6_round_trip {V E : Type} (pq : PqHstore V E) (h : Hstore) (hne : h.len ≠ 0)
    (henc : (pq.Value (Hstore.nullStrings h)).2 = none)
    (hdec : (pq.Scan (pq.Value (Hstore.nullStrings h)).1).2 = none)
    (hcodec : ∀ k, (pq.Scan (pq.Value (Hstore.nullStrings h)).1).1.get? k
      = (Hstore.nullStrings h).get? k) :
    (Hstore.Value pq h).2 = none ∧
    (Hstore.Scan pq .nil (Hstore.Value pq h).1).2 = none ∧
    (∀ k, k ∈ (Hstore.Scan pq .nil (Hstore.Value pq h).1).1.keys ↔ k ∈ h.keys) ∧
    (∀ k, h.get? k = some none →
      (Hstore.Scan pq .nil (Hstore.Value pq h).1).1.get? k = some none) ∧
    (∀ k str, h.get? k = some (some str) →
      (Hstore.Scan pq .nil (Hstore.Value pq h).1).1.get? k = some (some str)) := by
  have hv : Hstore.Value pq h = pq.Value (Hstore.nullStrings h) := by
    simp [Hstore.Value, hne]
  obtain ⟨herr, hget⟩ := scan_value_get? pq h hne hdec hcodec
  refine ⟨by rw [hv]; exact henc, herr, fun k => ?_, fun k hk => ?_, fun k str hk => ?_⟩
  · rw [GoMap.mem_keys_iff, GoMap.mem_keys_iff, hget]
  · rw [hget, hk]
  · rw [hget, hk]

/-- C6 with the codec of lib/pq, on the map with `a` pointing to nil and `b`
pointing to the empty string: the two entries come back distinct. -/
theorem C6_round_trip_witness :
    (Hstore.Scan pqHstore .nil (Hstore.Value pqHstore
        (.make (AList.insert "a" none (AList.insert "b" (some "") ∅)))).1).1.get? "a"
        = some none ∧
      (Hstore.Scan pqHstore .nil (Hstore.Value pqHstore
        (.make (AList.insert "a" none (AList.insert "b" (some "") ∅)))).1).1.get? "b"
        = some (some "") :=
  ⟨(C6_round_trip pqHstore (.make (AList.insert "a" none (AList.insert "b" (some "") ∅)))
      (by decide) (by decide) (by decide)
      (pqHstore_round_trip _ (by decide)).2.2).2.2.2.1 "a" (by decide),
   (C6_round_trip pqHstore (.make (AList.insert "a" none (AList.insert "b" (some "") ∅)))
      (by decide) (by decide) (by decide)
      (pqHstore_round_trip _ (by decide)).2.2).2.2.2.2 "b" "" (by decide)⟩

/-! ## Properties of `Hstore.Scan` on its three paths -/

/-- C11: when the driver's hstore decoder fails on the scanned value,
`Hstore.Scan` returns exactly the decoder's error and leaves the receiver
exactly as it was before the call. -/
theorem C11_scan_error {V E : Type} (pq : PqHstore V E) (h : Hstore) (value : Option V)
    (err : E) (hfail : (pq.Scan value).2 = some err) :
    Hstore.Scan pq h value = (h, some err) := by
  unfold Hstore.Scan
  simp only [hfail]

/-- C11 on a decoder that rejects the text `oops`: the error comes back as it
is and the receiver keeps its one entry. -/
theorem C11_scan_error_witness :
    Hstore.Scan rejectingHstore (.make (AList.insert "a" (some "x") ∅)) (some "oops".data)
      = (.make (AList.insert "a" (some "x") ∅), some "hstore: malformed value") :=
  C11_scan_error rejectingHstore (.make (AList.insert "a" (some "x") ∅)) (some "oops".data)
    "hstore: malformed value" (by decide)

/-- C12: when the scanned value decodes without error to a map without
entries (SQL NULL or an empty hstore), `Hstore.Scan` returns no error and
leaves the receiver unchanged, so a receiver that held entries still holds
exactly those entries. -/
theorem C12_scan_no_entries {V E : Type} (pq : PqHstore V E) (h : Hstore) (value : Option V)
    (hok : (pq.Scan value).2 = none) (hempty : (pq.Scan value).1.len = 0) :
    Hstore.Scan pq h value = (h, none) := by
  unfold Hstore.Scan
  simp only [hok, hempty, if_true]

/-- C12 with the codec of lib/pq: scanning SQL NULL, and scanning the empty
hstore text, into a receiver with one entry leaves that entry in place. -/
theorem C12_scan_no_entries_witness :
    Hstore.Scan pqHstore (.make (AList.insert "a" (some "x") ∅)) none
        = (.make (AList.insert "a" (some "x") ∅), none) ∧
      Hstore.Scan pqHstore (.make (AList.insert "a" (some "x") ∅)) (some [])
        = (.make (AList.insert "a" (some "x") ∅), none) :=
  ⟨C12_scan_no_entries pqHstore (.make (AList.insert "a" (some "x") ∅)) none
      (by decide) (by decide),
   C12_scan_no_entries pqHstore (.make (AList.insert "a" (some "x") ∅)) (some [])
      (by decide) (by decide)⟩

/-- C13: when the scanned value decodes without error to at least one entry,
`Hstore.Scan` replaces the receiver instead of merging into it: afterwards
the keys of the receiver are exactly the decoded keys, so a key it held
before and that was not decoded is gone; a decoded null entry is nil, and a
decoded valid entry is a pointer to the decoded string. -/
theorem C13_scan_replaces {V E : Type} (pq : PqHstore V E) (h : Hstore) (value : Option V)
    (hok : (pq.Scan value).2 = none) (hne : (pq.Scan value).1.len ≠ 0) :
    (Hstore.Scan pq h value).2 = none ∧
    (∀ k, k ∈ (Hstore.Scan pq h value).1.keys ↔ k ∈ (pq.Scan value).1.keys) ∧
    (∀ k, k ∈ h.keys → k ∉ (pq.Scan value).1.keys → (Hstore.Scan pq h value).1.get? k = none) ∧
    (∀ k e, (pq.Scan value).1.get? k = some e → e.Valid = false →
      (Hstore.Scan pq h value).1.get? k = some none) ∧
    (∀ k e, (pq.Scan value).1.get? k = some e → e.Valid = true →
      (Hstore.Scan pq h value).1.get? k = some (some e.String)) := by
  have hscan : Hstore.Scan pq h value = (Hstore.fromNullStrings (pq.Scan value).1, none) := by
    unfold Hstore.Scan
    simp only [hok, hne, if_false]
  have hget := fromNullStrings_get? (pq.Scan value).1
  rw [hscan]
  refine ⟨rfl, fun k => ?_, fun k _ hk => ?_, fun k e he hv => ?_, fun k e he hv => ?_⟩
  · simp only
    rw [GoMap.mem_keys_iff, GoMap.mem_keys_iff, hget]
    cases (pq.Scan value).1.get? k <;> simp
  · simp only
    rw [GoMap.mem_keys_iff] at hk
    rw [hget]
    cases hd : (pq.Scan value).1.get? k with
    | none => rfl
    | some e => rw [hd] at hk; simp at hk
  · simp only
    rw [hget, he]
    simp [hv]
  · simp only
    rw [hget, he]
    simp [hv]

/-- C13 with the codec of lib/pq: scanning the text of the pairs `a` with the
string `x` and `n` with NULL into a receiver that held the key `old` leaves
`a` pointing to `x`, `n` nil, and no key `old`. -/
theorem C13_scan_replaces_witness :
    (Hstore.Scan pqHstore (.make (AList.insert "old" (some "y") ∅))
        (pqHstore.Value (.make (AList.insert "a" { String := "x", Valid := true }
          (AList.insert "n" { String := "", Valid := false } ∅)))).1).1.get? "old" = none ∧
      (Hstore.Scan pqHstore (.make (AList.insert "old" (some "y") ∅))
        (pqHstore.Value (.make (AList.insert "a" { String := "x", Valid := true }
          (AList.insert "n" { String := "", Valid := false } ∅)))).1).1.get? "a"
        = some (some "x") ∧
      (Hstore.Scan pqHstore (.make (AList.insert "old" (some "y") ∅))
        (pqHstore.Value (.make (AList.insert "a" { String := "x", Valid := true }
          (AList.insert "n" { String := "", Valid := false } ∅)))).1).1.get? "n"
        = some none :=
  ⟨(C13_scan_replaces pqHstore (.make (AList.insert "old" (some "y") ∅))
      (pqHstore.Value (.make (AList.insert "a" { String := "x", Valid := true }
        (AList.insert "n" { String := "", Valid := false } ∅)))).1
      (by decide) (by decide)).2.2.1 "old" (by decide) (by decide),
   (C13_scan_replaces pqHstore (.make (AList.insert "old" (some "y") ∅))
      (pqHstore.Value (.make (AList.insert "a" { String := "x", Valid := true }
        (AList.insert "n" { String := "", Valid := false } ∅)))).1
      (by decide) (by decide)).2.2.2.2 "a" { String := "x", Valid := true }
      (by decide) rfl,
   (C13_scan_replaces pqHstore (.make (AList.insert "old" (some "y") ∅))
      (pqHstore.Value (.make (AList.insert "a" { String := "x", Valid := true }
        (AList.insert "n" { String := "", Valid := false } ∅)))).1
      (by decide) (by decide)).2.2.2.1 "n" { String := "", Valid := false }
      (by decide) rfl⟩

/-! ## Byte arrays, UUIDs and the tags -/

theorem varchar_ne_uuid (size : Int) : Sprintf "varchar(%d)" [.int size] ≠ "uuid" := by
  intro h
  have hd := congrArg String.data h
  simp [Sprintf, sprintfAux, fmtVerb] at hd

theorem invalidSqlType_panics (v : Value) : ∃ msg, invalidSqlType v = .panic msg := by
  cases v with
  | zero => exact ⟨_, rfl⟩
  | of typ ro => exact ⟨_, rfl⟩

/-- C16: `isUUID` is true exactly for a value of kind Array whose type has
length 16 and whose type name, lower-cased, is "uuid" or "guid", and false
for every other value; so it is false for every slice, for every array of
another length, and for an array type without a name (lower-casing the empty
name gives the empty name). -/
theorem C16_isUUID (go : GoRuntime) (value : Value) :
    (isUUID go value = .ok true ↔
      value.Kind = Kind.Array ∧ ∃ typ, value.Type = .ok typ ∧ typ.Len = 16 ∧
        (go.ToLower typ.Name = "uuid" ∨ go.ToLower typ.Name = "guid")) ∧
    (isUUID go value = .ok true ∨ isUUID go value = .ok false) ∧
    (value.Kind = Kind.Slice → isUUID go value = .ok false) ∧
    (∀ typ, value.Type = .ok typ → value.Kind = Kind.Array → typ.Len ≠ 16 →
      isUUID go value = .ok false) ∧
    (∀ typ, value.Type = .ok typ → go.ToLower "" = "" → value.Kind = Kind.Array →
      typ.Name = "" → isUUID go value = .ok false) := by
  obtain ⟨h1, h2⟩ := isUUID_spec go value
  have hiff : isUUID go value = .ok true ↔ IsUUIDShaped go value := by
    constructor
    · intro h
      by_contra hn
      rw [h2 hn] at h
      cases h
    · exact h1
  refine ⟨hiff, ?_, fun hk => ?_, fun typ ht _ hlen => ?_, fun typ ht hlow _ hname => ?_⟩
  · by_cases hs : IsUUIDShaped go value
    · exact Or.inl (h1 hs)
    · exact Or.inr (h2 hs)
  · apply h2
    rintro ⟨h, _⟩
    rw [hk] at h
    exact absurd h (by decide)
  · apply h2
    rintro ⟨_, t, ht', h, _⟩
    rw [ht] at ht'
    cases ht'
    exact hlen h
  · apply h2
    rintro ⟨_, t, ht', _, h⟩
    rw [ht] at ht'
    cases ht'
    rw [hname, hlow] at h
    rcases h with h | h <;> exact absurd h (by decide)

/-- C16 at concrete values: `isUUID` rejects `[]int`, `[8]int` and the
unnamed `[16]int`, and accepts the type `Guid` declared as `[16]int`. -/
theorem C16_isUUID_witness :
    isUUID go64 (.of (.slice (.basic .int)) false) = .ok false ∧
      isUUID go64 (.of (.array 8 (.basic .int)) false) = .ok false ∧
      isUUID go64 (.of (.array 16 (.basic .int)) false) = .ok false ∧
      isUUID go64 (.of (.named "ids" "Guid" (.array 16 (.basic .int))) false) = .ok true :=
  ⟨(C16_isUUID go64 (.of (.slice (.basic .int)) false)).2.2.1 (by decide),
   (C16_isUUID go64 (.of (.array 8 (.basic .int)) false)).2.2.2.1 _ rfl
      (by decide) (by decide),
   (C16_isUUID go64 (.of (.array 16 (.basic .int)) false)).2.2.2.2 _ rfl
      (by decide) (by decide) (by decide),
   (C16_isUUID go64 (.of (.named "ids" "Guid" (.array 16 (.basic .int))) false)).1.2
      ⟨by decide, _, rfl, by decide, Or.inr (by decide)⟩⟩

/-- C14: the byte-array test comes before the UUID test. `DataTypeOf` returns
"bytea" for every array or slice whose element type is `uint8`, also for one
that is UUID-shaped, and it returns "uuid" exactly for a UUID-shaped array
(length 16, name `uuid` or `guid` once lower-cased) whose element type is not
`uint8`. -/
theorem C14_bytes_before_uuid (go : GoRuntime) (v : Value) (tagSettings : GoMap String) :
    (IsByteArrayOrSlice v → postgres.DataTypeOf go v tagSettings = .ret "bytea") ∧
    (IsByteArrayOrSlice v ∧ IsUUIDShaped go v →
      postgres.DataTypeOf go v tagSettings = .ret "bytea") ∧
    (postgres.DataTypeOf go v tagSettings = .ret "uuid" ↔
      IsUUIDShaped go v ∧ ∀ typ, v.Type = .ok typ → typ.Elem ≠ some uint8Type) := by
  have hb := isByteArrayOrSlice_spec v
  have hu := isUUID_spec go v
  have hbytes : IsByteArrayOrSlice v → postgres.DataTypeOf go v tagSettings = .ret "bytea" := by
    intro h
    have hb' := hb.1 h
    rcases h.1 with hk | hk <;> simp [postgres.DataTypeOf, hk, hb']
  refine ⟨hbytes, fun h => hbytes h.1, ?_⟩
  have hvar := varchar_ne_uuid
  obtain ⟨msg, hinv⟩ := invalidSqlType_panics v
  have helem : IsUUIDShaped go v →
      ((∀ typ, v.Type = .ok typ → typ.Elem ≠ some uint8Type) ↔ ¬ IsByteArrayOrSlice v) := by
    rintro ⟨hk, t, ht, _⟩
    constructor
    · rintro h ⟨_, t', ht', he⟩
      exact h t' ht' he
    · intro h t' ht' he
      exact h ⟨Or.inl hk, t', ht', he⟩
  by_cases hU : IsUUIDShaped go v
  · rw [helem hU]
    have hk := hU.1
    by_cases hB : IsByteArrayOrSlice v
    · simp [postgres.DataTypeOf, hk, hb.1 hB, hU, hB]
    · simp [postgres.DataTypeOf, hk, hb.2 hB, hu.1 hU, hU, hB]
  · have hright : ¬ (IsUUIDShaped go v ∧ ∀ typ, v.Type = .ok typ → typ.Elem ≠ some uint8Type) :=
      fun h => hU h.1
    refine ⟨fun h => ?_, fun h => absurd h hright⟩
    exfalso
    revert h
    cases hk : v.Kind <;>
      simp only [postgres.DataTypeOf, hk, hinv, hu.2 hU] <;>
      try (first | (simp; done) | (split_ifs <;> simp [hvar]))
    all_goals (split <;> (try split_ifs) <;> simp)

/-- C14 at concrete values: the type `UUID` declared as `[16]uint8` is
"bytea", not "uuid", and the type `UUID` declared as `[16]int8` is "uuid". -/
theorem C14_bytes_before_uuid_witness :
    postgres.DataTypeOf go64 (.of (.named "ids" "UUID" (.array 16 (.basic .uint8))) false) .nil
        = .ret "bytea" ∧
      postgres.DataTypeOf go64 (.of (.named "ids" "UUID" (.array 16 (.basic .int8))) false) .nil
        = .ret "uuid" :=
  ⟨(C14_bytes_before_uuid go64
      (.of (.named "ids" "UUID" (.array 16 (.basic .uint8))) false) .nil).2.1
      ⟨⟨Or.inl (by decide), _, rfl, by decide⟩,
        by decide, _, rfl, by decide, Or.inl (by decide)⟩,
   (C14_bytes_before_uuid go64
      (.of (.named "ids" "UUID" (.array 16 (.basic .int8))) false) .nil).2.2.2
      ⟨⟨by decide, _, rfl, by decide, Or.inl (by decide)⟩,
        fun typ ht => by cases ht; decide⟩⟩

/-- C15: tag independence. For a value whose kind is not String, two tag
settings that agree on every key other than SIZE give the same result of
`DataTypeOf`, returned name or panic; for a value whose kind is not an
integer kind, so do two tag settings that agree on every key other than
AUTO_INCREMENT. -/
theorem C15_tag_independence (go : GoRuntime) (v : Value) (tags₁ tags₂ : GoMap String) :
    (v.Kind ≠ Kind.String → (∀ k, k ≠ "SIZE" → tags₁.get? k = tags₂.get? k) →
      postgres.DataTypeOf go v tags₁ = postgres.DataTypeOf go v tags₂) ∧
    (v.Kind ∉ integerKinds → (∀ k, k ≠ "AUTO_INCREMENT" → tags₁.get? k = tags₂.get? k) →
      postgres.DataTypeOf go v tags₁ = postgres.DataTypeOf go v tags₂) := by
  refine ⟨fun hk hsame => ?_, fun hk hsame => ?_⟩
  · have hauto : tags₁.get? "AUTO_INCREMENT" = tags₂.get? "AUTO_INCREMENT" :=
      hsame "AUTO_INCREMENT" (by decide)
    cases hkind : v.Kind <;>
      first
        | exact absurd hkind hk
        | simp only [postgres.DataTypeOf, hkind, hauto]
  · have hsize : tags₁.get? "SIZE" = tags₂.get? "SIZE" := hsame "SIZE" (by decide)
    cases hkind : v.Kind <;>
      first
        | (exfalso; apply hk; rw [hkind]; decide)
        | simp only [postgres.DataTypeOf, hkind, hsize]

/-- C15 at concrete values: a SIZE tag does not change the name of an `int64`
field, and an AUTO_INCREMENT tag does not change the name of a `string`
field. -/
theorem C15_tag_independence_witness :
    postgres.DataTypeOf go64 (.of (.basic .int64) false) (.make (AList.insert "SIZE" "10" ∅))
        = postgres.DataTypeOf go64 (.of (.basic .int64) false) .nil ∧
      postgres.DataTypeOf go64 (.of (.basic .string) false)
          (.make (AList.insert "AUTO_INCREMENT" "" ∅))
        = postgres.DataTypeOf go64 (.of (.basic .string) false) .nil :=
  ⟨(C15_tag_independence go64 (.of (.basic .int64) false)
      (.make (AList.insert "SIZE" "10" ∅)) .nil).1
      (by decide) (fun k hk => by
        simp only [GoMap.get?]
        exact AList.lookup_insert_ne hk),
   (C15_tag_independence go64 (.of (.basic .string) false)
      (.make (AList.insert "AUTO_INCREMENT" "" ∅)) .nil).2
      (by decide) (fun k hk => by
        simp only [GoMap.get?]
        exact AList.lookup_insert_ne hk)⟩

end Gorm
